import Mathlib

/-!
Verification of the temporal period engine of the release-assignment service
(`src/index.js`): UTC day-only calendar math, the four period generators
(weekly, monthly, quarterly-with-anchor, yearly), closed-interval matching,
idempotent seeding, and the single-assignment reconciler.

JavaScript `Date` values are modelled as integers: milliseconds since the
Unix epoch, interpreted in the proleptic Gregorian calendar (UTC).  The
`getUTC*` accessors and `Date.UTC` are modelled by an explicit Gregorian
calendar kernel below (`firstDayOfMonth` / `monthFromDays`), which is proved
to be a correct inverse pair, so that every accessor is the mathematical
function the ECMAScript specification prescribes.
-/

/-! ### Gregorian calendar kernel

`firstDayOfMonth k` is the day number (days since 1970-01-01) of the first
day of the month with absolute month index `k` (k = 12*year + month, month
0-based, so k = 23640 is January 1970).  The closed form is the standard
era-based civil-calendar formula.  `monthFromDays` is its inverse: the month
index containing a given day number, computed from a year estimate refined
by guarded comparisons, so its bracketing property is correct by
construction. -/

def firstDayOfMonth (k : Int) : Int :=
  365 * ((k - 2) / 12) + ((k - 2) / 12) / 4 - ((k - 2) / 12) / 100 + ((k - 2) / 12) / 400
    + (153 * ((k - 2) % 12) + 2) / 5 - 719468

theorem firstDayOfMonth_succ_bounds (k : Int) :
    firstDayOfMonth k + 28 ≤ firstDayOfMonth (k + 1) ∧
    firstDayOfMonth (k + 1) ≤ firstDayOfMonth k + 31 := by
  unfold firstDayOfMonth
  have h : (k - 2) % 12 = 0 ∨ (k - 2) % 12 = 1 ∨ (k - 2) % 12 = 2 ∨ (k - 2) % 12 = 3 ∨
      (k - 2) % 12 = 4 ∨ (k - 2) % 12 = 5 ∨ (k - 2) % 12 = 6 ∨ (k - 2) % 12 = 7 ∨
      (k - 2) % 12 = 8 ∨ (k - 2) % 12 = 9 ∨ (k - 2) % 12 = 10 ∨ (k - 2) % 12 = 11 := by
    omega
  rcases h with h | h | h | h | h | h | h | h | h | h | h | h <;> omega

theorem firstDayOfMonth_add_nat (k : Int) (d : Nat) :
    firstDayOfMonth k ≤ firstDayOfMonth (k + d) := by
  induction d with
  | zero => simp
  | succ m ih =>
    have h := firstDayOfMonth_succ_bounds (k + m)
    have e : k + (m : Int) + 1 = k + ((m : Nat) + 1 : Nat) := by push_cast; ring
    rw [e] at h
    omega

theorem firstDayOfMonth_mono {k k' : Int} (h : k ≤ k') :
    firstDayOfMonth k ≤ firstDayOfMonth k' := by
  have hd := firstDayOfMonth_add_nat k (k' - k).toNat
  have e : k + ((k' - k).toNat : Int) = k' := by omega
  rw [e] at hd
  exact hd

theorem firstDayOfMonth_strict {k k' : Int} (h : k < k') :
    firstDayOfMonth k < firstDayOfMonth k' := by
  have h1 := firstDayOfMonth_succ_bounds k
  have h2 := firstDayOfMonth_mono (show k + 1 ≤ k' by omega)
  omega

/-- First approximation of the (March-shifted) year containing day `n`:
exact up to ±2 calendar years, which the guarded search below corrects. -/
def yearApprox (n : Int) : Int := (400 * (n + 719468)) / 146097

theorem yearApprox_window (n : Int) :
    firstDayOfMonth (12 * (yearApprox n - 2)) ≤ n ∧
    n < firstDayOfMonth (12 * (yearApprox n + 3)) := by
  unfold firstDayOfMonth yearApprox
  omega

/-- The calendar year containing day number `n`. -/
def yearFromDays (n : Int) : Int :=
  if n < firstDayOfMonth (12 * (yearApprox n - 1)) then yearApprox n - 2
  else if n < firstDayOfMonth (12 * (yearApprox n)) then yearApprox n - 1
  else if n < firstDayOfMonth (12 * (yearApprox n + 1)) then yearApprox n
  else if n < firstDayOfMonth (12 * (yearApprox n + 2)) then yearApprox n + 1
  else yearApprox n + 2

theorem yearFromDays_bracket (n : Int) :
    firstDayOfMonth (12 * yearFromDays n) ≤ n ∧
    n < firstDayOfMonth (12 * yearFromDays n + 12) := by
  have hw := yearApprox_window n
  have e1 : 12 * (yearApprox n - 2) + 12 = 12 * (yearApprox n - 1) := by ring
  have e2 : 12 * (yearApprox n - 1) + 12 = 12 * (yearApprox n) := by ring
  have e3 : 12 * (yearApprox n) + 12 = 12 * (yearApprox n + 1) := by ring
  have e4 : 12 * (yearApprox n + 1) + 12 = 12 * (yearApprox n + 2) := by ring
  have e5 : 12 * (yearApprox n + 2) + 12 = 12 * (yearApprox n + 3) := by ring
  have m1 := firstDayOfMonth_mono (show 12 * (yearApprox n - 2) ≤ 12 * (yearApprox n - 1) by omega)
  have m2 := firstDayOfMonth_mono (show 12 * (yearApprox n - 1) ≤ 12 * (yearApprox n) by omega)
  have m3 := firstDayOfMonth_mono (show 12 * (yearApprox n) ≤ 12 * (yearApprox n + 1) by omega)
  have m4 := firstDayOfMonth_mono (show 12 * (yearApprox n + 1) ≤ 12 * (yearApprox n + 2) by omega)
  unfold yearFromDays
  split_ifs with h1 h2 h3 h4 <;> constructor <;> (try rw [e1]) <;> (try rw [e2]) <;>
    (try rw [e3]) <;> (try rw [e4]) <;> (try rw [e5]) <;> omega

/-- The month (0-based) within year `y` containing day number `n`
(assuming `n` falls in year `y`), found by comparing month starts. -/
def monthInYear (y n : Int) : Int :=
  if n < firstDayOfMonth (12 * y + 1) then 0
  else if n < firstDayOfMonth (12 * y + 2) then 1
  else if n < firstDayOfMonth (12 * y + 3) then 2
  else if n < firstDayOfMonth (12 * y + 4) then 3
  else if n < firstDayOfMonth (12 * y + 5) then 4
  else if n < firstDayOfMonth (12 * y + 6) then 5
  else if n < firstDayOfMonth (12 * y + 7) then 6
  else if n < firstDayOfMonth (12 * y + 8) then 7
  else if n < firstDayOfMonth (12 * y + 9) then 8
  else if n < firstDayOfMonth (12 * y + 10) then 9
  else if n < firstDayOfMonth (12 * y + 11) then 10
  else 11

/-- Absolute month index containing day number `n`. -/
def monthFromDays (n : Int) : Int := 12 * yearFromDays n + monthInYear (yearFromDays n) n

theorem monthFromDays_def (n : Int) :
    monthFromDays n = 12 * yearFromDays n + monthInYear (yearFromDays n) n := rfl

theorem monthInYear_eq0 (y n : Int) :
    monthInYear y n = 0 → n < firstDayOfMonth (12 * y + 1) := by
  unfold monthInYear; omega

theorem monthInYear_eq1 (y n : Int) : monthInYear y n = 1 →
    firstDayOfMonth (12 * y + 1) ≤ n ∧ n < firstDayOfMonth (12 * y + 2) := by
  unfold monthInYear; omega

theorem monthInYear_eq2 (y n : Int) : monthInYear y n = 2 →
    firstDayOfMonth (12 * y + 2) ≤ n ∧ n < firstDayOfMonth (12 * y + 3) := by
  unfold monthInYear; omega

theorem monthInYear_eq3 (y n : Int) : monthInYear y n = 3 →
    firstDayOfMonth (12 * y + 3) ≤ n ∧ n < firstDayOfMonth (12 * y + 4) := by
  unfold monthInYear; omega

theorem monthInYear_eq4 (y n : Int) : monthInYear y n = 4 →
    firstDayOfMonth (12 * y + 4) ≤ n ∧ n < firstDayOfMonth (12 * y + 5) := by
  unfold monthInYear; omega

theorem monthInYear_eq5 (y n : Int) : monthInYear y n = 5 →
    firstDayOfMonth (12 * y + 5) ≤ n ∧ n < firstDayOfMonth (12 * y + 6) := by
  unfold monthInYear; omega

theorem monthInYear_eq6 (y n : Int) : monthInYear y n = 6 →
    firstDayOfMonth (12 * y + 6) ≤ n ∧ n < firstDayOfMonth (12 * y + 7) := by
  unfold monthInYear; omega

theorem monthInYear_eq7 (y n : Int) : monthInYear y n = 7 →
    firstDayOfMonth (12 * y + 7) ≤ n ∧ n < firstDayOfMonth (12 * y + 8) := by
  unfold monthInYear; omega

theorem monthInYear_eq8 (y n : Int) : monthInYear y n = 8 →
    firstDayOfMonth (12 * y + 8) ≤ n ∧ n < firstDayOfMonth (12 * y + 9) := by
  unfold monthInYear; omega

theorem monthInYear_eq9 (y n : Int) : monthInYear y n = 9 →
    firstDayOfMonth (12 * y + 9) ≤ n ∧ n < firstDayOfMonth (12 * y + 10) := by
  unfold monthInYear; omega

theorem monthInYear_eq10 (y n : Int) : monthInYear y n = 10 →
    firstDayOfMonth (12 * y + 10) ≤ n ∧ n < firstDayOfMonth (12 * y + 11) := by
  unfold monthInYear; omega

theorem monthInYear_eq11 (y n : Int) : monthInYear y n = 11 →
    firstDayOfMonth (12 * y + 11) ≤ n := by
  unfold monthInYear; omega

theorem monthInYear_range (y n : Int) : 0 ≤ monthInYear y n ∧ monthInYear y n ≤ 11 := by
  unfold monthInYear
  omega

theorem monthFromDays_bracket (n : Int) :
    firstDayOfMonth (monthFromDays n) ≤ n ∧ n < firstDayOfMonth (monthFromDays n + 1) := by
  have hy := yearFromDays_bracket n
  have hr := monthInYear_range (yearFromDays n) n
  have hv : monthInYear (yearFromDays n) n = 0 ∨ monthInYear (yearFromDays n) n = 1 ∨
      monthInYear (yearFromDays n) n = 2 ∨ monthInYear (yearFromDays n) n = 3 ∨
      monthInYear (yearFromDays n) n = 4 ∨ monthInYear (yearFromDays n) n = 5 ∨
      monthInYear (yearFromDays n) n = 6 ∨ monthInYear (yearFromDays n) n = 7 ∨
      monthInYear (yearFromDays n) n = 8 ∨ monthInYear (yearFromDays n) n = 9 ∨
      monthInYear (yearFromDays n) n = 10 ∨ monthInYear (yearFromDays n) n = 11 := by omega
  unfold monthFromDays
  rcases hv with hm | hm | hm | hm | hm | hm | hm | hm | hm | hm | hm | hm <;> rw [hm]
  · have := monthInYear_eq0 (yearFromDays n) n hm
    rw [show 12 * yearFromDays n + 0 = 12 * yearFromDays n by ring]
    constructor <;> omega
  · have := monthInYear_eq1 (yearFromDays n) n hm
    rw [show 12 * yearFromDays n + 1 + 1 = 12 * yearFromDays n + 2 by ring]
    constructor <;> omega
  · have := monthInYear_eq2 (yearFromDays n) n hm
    rw [show 12 * yearFromDays n + 2 + 1 = 12 * yearFromDays n + 3 by ring]
    constructor <;> omega
  · have := monthInYear_eq3 (yearFromDays n) n hm
    rw [show 12 * yearFromDays n + 3 + 1 = 12 * yearFromDays n + 4 by ring]
    constructor <;> omega
  · have := monthInYear_eq4 (yearFromDays n) n hm
    rw [show 12 * yearFromDays n + 4 + 1 = 12 * yearFromDays n + 5 by ring]
    constructor <;> omega
  · have := monthInYear_eq5 (yearFromDays n) n hm
    rw [show 12 * yearFromDays n + 5 + 1 = 12 * yearFromDays n + 6 by ring]
    constructor <;> omega
  · have := monthInYear_eq6 (yearFromDays n) n hm
    rw [show 12 * yearFromDays n + 6 + 1 = 12 * yearFromDays n + 7 by ring]
    constructor <;> omega
  · have := monthInYear_eq7 (yearFromDays n) n hm
    rw [show 12 * yearFromDays n + 7 + 1 = 12 * yearFromDays n + 8 by ring]
    constructor <;> omega
  · have := monthInYear_eq8 (yearFromDays n) n hm
    rw [show 12 * yearFromDays n + 8 + 1 = 12 * yearFromDays n + 9 by ring]
    constructor <;> omega
  · have := monthInYear_eq9 (yearFromDays n) n hm
    rw [show 12 * yearFromDays n + 9 + 1 = 12 * yearFromDays n + 10 by ring]
    constructor <;> omega
  · have := monthInYear_eq10 (yearFromDays n) n hm
    rw [show 12 * yearFromDays n + 10 + 1 = 12 * yearFromDays n + 11 by ring]
    constructor <;> omega
  · have := monthInYear_eq11 (yearFromDays n) n hm
    rw [show 12 * yearFromDays n + 11 + 1 = 12 * yearFromDays n + 12 by ring]
    constructor <;> omega

theorem monthFromDays_eq_of_bracket {k n : Int}
    (h1 : firstDayOfMonth k ≤ n) (h2 : n < firstDayOfMonth (k + 1)) :
    monthFromDays n = k := by
  have hb := monthFromDays_bracket n
  by_contra hne
  rcases lt_or_gt_of_ne hne with hlt | hgt
  · have := firstDayOfMonth_mono (show monthFromDays n + 1 ≤ k by omega)
    omega
  · have := firstDayOfMonth_mono (show k + 1 ≤ monthFromDays n by omega)
    omega

theorem monthFromDays_firstDay (k : Int) : monthFromDays (firstDayOfMonth k) = k := by
  have := firstDayOfMonth_succ_bounds k
  exact monthFromDays_eq_of_bracket (le_refl _) (by omega)

theorem monthFromDays_mono {a b : Int} (h : a ≤ b) : monthFromDays a ≤ monthFromDays b := by
  have ha := monthFromDays_bracket a
  have hb := monthFromDays_bracket b
  by_contra hlt
  have := firstDayOfMonth_mono (show monthFromDays b + 1 ≤ monthFromDays a by omega)
  omega

/-! ### JavaScript `Date` model

A `Date` is its millisecond timestamp (UTC).  `dayOf` is the day number
(`Math.floor(t / 86400000)`; `/` on `Int` is Euclidean division, which
coincides with `Math.floor` for the positive divisor).  The `getUTC*`
accessors are the ECMAScript-mandated Gregorian field extractions, expressed
through the verified kernel above; `dateUTC` models `Date.UTC`, including
its normalization of out-of-range month and day arguments. -/

def msPerDay : Int := 86400000

def dayOf (t : Int) : Int := t / msPerDay

def getUTCFullYear (t : Int) : Int := yearFromDays (dayOf t)

/-- 0-based month, as in JavaScript. -/
def getUTCMonth (t : Int) : Int := monthInYear (yearFromDays (dayOf t)) (dayOf t)

def getUTCDate (t : Int) : Int := dayOf t - firstDayOfMonth (monthFromDays (dayOf t)) + 1

/-- Day of week, 0 = Sunday.  Day 0 (1970-01-01) was a Thursday (= 4). -/
def getUTCDay (t : Int) : Int := (dayOf t + 4) % 7

/-- `Date.UTC(y, m, d, …)` restricted to a time-within-day in milliseconds;
month and day arguments normalize arithmetically exactly as in ECMAScript
`MakeDay`. -/
def dateUTC (y m d ms : Int) : Int :=
  (firstDayOfMonth (12 * y + m) + (d - 1)) * msPerDay + ms

/-! ### Source helpers (`src/index.js` lines 113-141) -/

/-- `startOfDayUTC(d)` from the source: `Date.UTC(getUTCFullYear, getUTCMonth,
getUTCDate, 0, 0, 0, 0)`. -/
def startOfDayUTC (t : Int) : Int :=
  dateUTC (getUTCFullYear t) (getUTCMonth t) (getUTCDate t) 0

/-- `endOfDayUTC(d)` from the source: same day at `23:59:59.999`. -/
def endOfDayUTC (t : Int) : Int :=
  dateUTC (getUTCFullYear t) (getUTCMonth t) (getUTCDate t) 86399999

/-- `atUTC(y, m, d)` from the source: `Date.UTC(y, m, d, 0, 0, 0, 0)`. -/
def atUTC (y m d : Int) : Int := dateUTC y m d 0

/-- `addDays(d, days)` from the source: `setUTCDate(getUTCDate() + days)`,
which re-makes the date from the (normalizing) day field, keeping the
time-within-day `t % msPerDay`. -/
def addDays (t days : Int) : Int :=
  dateUTC (getUTCFullYear t) (getUTCMonth t) (getUTCDate t + days) (t % msPerDay)

/-- `addMonths(d, months)` from the source:
`Date.UTC(getUTCFullYear, getUTCMonth + months, 1)`. -/
def addMonths (t months : Int) : Int := atUTC (getUTCFullYear t) (getUTCMonth t + months) 1

theorem dateUTC_day_collapse (t : Int) :
    firstDayOfMonth (12 * getUTCFullYear t + getUTCMonth t) + (getUTCDate t - 1) = dayOf t := by
  have h : 12 * getUTCFullYear t + getUTCMonth t = monthFromDays (dayOf t) := rfl
  rw [h]
  unfold getUTCDate
  omega

theorem startOfDayUTC_eq (t : Int) : startOfDayUTC t = dayOf t * msPerDay := by
  have h := dateUTC_day_collapse t
  unfold startOfDayUTC dateUTC
  rw [h]
  ring

theorem endOfDayUTC_eq (t : Int) : endOfDayUTC t = dayOf t * msPerDay + 86399999 := by
  have h := dateUTC_day_collapse t
  unfold endOfDayUTC dateUTC
  rw [h]

theorem addDays_eq (t days : Int) : addDays t days = t + days * msPerDay := by
  have h := dateUTC_day_collapse t
  unfold addDays dateUTC
  have h2 : firstDayOfMonth (12 * getUTCFullYear t + getUTCMonth t) + (getUTCDate t + days - 1)
      = dayOf t + days := by omega
  rw [h2]
  unfold dayOf msPerDay
  unfold msPerDay at *
  omega

theorem addMonths_eq (t months : Int) :
    addMonths t months = firstDayOfMonth (monthFromDays (dayOf t) + months) * msPerDay := by
  unfold addMonths atUTC dateUTC
  rw [show 12 * getUTCFullYear t + (getUTCMonth t + months)
      = monthFromDays (dayOf t) + months from by rw [monthFromDays_def]; unfold getUTCFullYear getUTCMonth; ring]
  ring

theorem atUTC_eq (y m d : Int) :
    atUTC y m d = (firstDayOfMonth (12 * y + m) + (d - 1)) * msPerDay := by
  unfold atUTC dateUTC
  ring

theorem dayOf_mul (a : Int) : dayOf (a * msPerDay) = a := by
  unfold dayOf msPerDay
  omega

theorem dayOf_mul_add (a r : Int) (h0 : 0 ≤ r) (h1 : r < msPerDay) :
    dayOf (a * msPerDay + r) = a := by
  unfold msPerDay at h1
  unfold dayOf msPerDay
  omega

theorem dayOf_mono {s t : Int} (h : s ≤ t) : dayOf s ≤ dayOf t := by
  unfold dayOf msPerDay
  omega

theorem startOfDayUTC_midnight (a : Int) : startOfDayUTC (a * msPerDay) = a * msPerDay := by
  rw [startOfDayUTC_eq, dayOf_mul]

theorem monthFromDays_dayOf_midnight (k : Int) :
    monthFromDays (dayOf (firstDayOfMonth k * msPerDay)) = k := by
  rw [dayOf_mul, monthFromDays_firstDay]

/-- Comparison of midnights is comparison of day numbers. -/
theorem midnight_le_iff (a b : Int) : a * msPerDay ≤ b * msPerDay ↔ a ≤ b := by
  unfold msPerDay
  omega

/-! ### Day-only keys (`toYMDUTC`, lines 143-155)

`toYMDUTC` in the source renders the zero-padded string `YYYY-MM-DD` and all
comparisons on keys are string comparisons.  For four-digit years the
lexicographic order of those fixed-width strings is exactly the
lexicographic order of the `(year, month, day)` triple, and string equality
is componentwise equality for any year, so the key is modelled as the
triple with lexicographic comparison. -/

structure DayKey where
  year : Int
  month : Int
  day : Int
deriving DecidableEq, Repr

/-- `toYMDUTC(x)`: the `YYYY-MM-DD` day key of a date (month 1-based in the
rendered string, hence the `+ 1`). -/
def toYMDUTC (t : Int) : DayKey :=
  { year := getUTCFullYear t, month := getUTCMonth t + 1, day := getUTCDate t }

/-- Lexicographic (string) comparison of two day keys. -/
def keyLE (a b : DayKey) : Bool :=
  if a.year ≠ b.year then decide (a.year < b.year)
  else if a.month ≠ b.month then decide (a.month < b.month)
  else decide (a.day ≤ b.day)

/-- The key of day number `n` (`toYMDUTC` factors through `dayOf`). -/
def keyOfDay (n : Int) : DayKey :=
  { year := yearFromDays n
    month := monthInYear (yearFromDays n) n + 1
    day := n - firstDayOfMonth (monthFromDays n) + 1 }

theorem toYMDUTC_eq_keyOfDay (t : Int) : toYMDUTC t = keyOfDay (dayOf t) := rfl

theorem keyLE_shape (a b : Int) : keyLE (keyOfDay a) (keyOfDay b) =
    (if yearFromDays a ≠ yearFromDays b then decide (yearFromDays a < yearFromDays b)
     else if monthInYear (yearFromDays a) a + 1 ≠ monthInYear (yearFromDays b) b + 1 then
       decide (monthInYear (yearFromDays a) a + 1 < monthInYear (yearFromDays b) b + 1)
     else decide (a - firstDayOfMonth (monthFromDays a) + 1
        ≤ b - firstDayOfMonth (monthFromDays b) + 1)) := rfl

theorem keyLE_day_iff (a b : Int) : keyLE (keyOfDay a) (keyOfDay b) = true ↔ a ≤ b := by
  have hba := monthFromDays_bracket a
  have hbb := monthFromDays_bracket b
  have hra := monthInYear_range (yearFromDays a) a
  have hrb := monthInYear_range (yearFromDays b) b
  have hda := monthFromDays_def a
  have hdb := monthFromDays_def b
  constructor
  · intro h
    rw [keyLE_shape] at h
    by_cases h1 : yearFromDays a ≠ yearFromDays b
    · rw [if_pos h1, decide_eq_true_eq] at h
      have hm := firstDayOfMonth_mono (show monthFromDays a + 1 ≤ monthFromDays b by omega)
      omega
    · rw [if_neg h1] at h
      push_neg at h1
      by_cases h2 : monthInYear (yearFromDays a) a + 1 ≠ monthInYear (yearFromDays b) b + 1
      · rw [if_pos h2, decide_eq_true_eq] at h
        have hm := firstDayOfMonth_mono (show monthFromDays a + 1 ≤ monthFromDays b by omega)
        omega
      · rw [if_neg h2, decide_eq_true_eq] at h
        push_neg at h2
        have hk : monthFromDays a = monthFromDays b := by omega
        rw [hk] at hba h
        omega
  · intro h
    have hk := monthFromDays_mono h
    rw [keyLE_shape]
    by_cases h1 : yearFromDays a ≠ yearFromDays b
    · rw [if_pos h1, decide_eq_true_eq]
      omega
    · rw [if_neg h1]
      push_neg at h1
      by_cases h2 : monthInYear (yearFromDays a) a + 1 ≠ monthInYear (yearFromDays b) b + 1
      · rw [if_pos h2, decide_eq_true_eq]
        omega
      · rw [if_neg h2, decide_eq_true_eq]
        push_neg at h2
        have hke : monthFromDays a = monthFromDays b := by omega
        rw [hke] at hba ⊢
        omega

theorem keyEq_day_iff (a b : Int) : keyOfDay a = keyOfDay b ↔ a = b := by
  have hba := monthFromDays_bracket a
  have hbb := monthFromDays_bracket b
  have hda := monthFromDays_def a
  have hdb := monthFromDays_def b
  constructor
  · intro h
    unfold keyOfDay at h
    rw [DayKey.mk.injEq] at h
    obtain ⟨hy, hm2, hd⟩ := h
    have hk : monthFromDays a = monthFromDays b := by omega
    rw [hk] at hba hd
    omega
  · intro h
    rw [h]

/-! ### Closed-interval day matching and timeframe equality
(lines 148-165) -/

/-- `isWithinClosedDay(d, start, end)`: false if either bound is absent
(JavaScript falsy guard `!start || !end`), else the string comparison
`toYMDUTC(start) <= toYMDUTC(d) && toYMDUTC(d) <= toYMDUTC(end)`. -/
def isWithinClosedDay (d : Int) (start? stop? : Option Int) : Bool :=
  match start?, stop? with
  | some s, some e => keyLE (toYMDUTC s) (toYMDUTC d) && keyLE (toYMDUTC d) (toYMDUTC e)
  | _, _ => false

/-! ### Periods and month names -/

/-- An in-memory period `{ name, start, end }` (the `end` field is called
`stop` here because `end` is a reserved word in Lean). -/
structure Period where
  name : String
  start : Int
  stop : Int
deriving DecidableEq, Repr

/-- `toLocaleString('en-US', { month: 'long', timeZone: 'UTC' })` table. -/
def monthLongName (m : Int) : String :=
  if m = 0 then "January" else if m = 1 then "February" else if m = 2 then "March"
  else if m = 3 then "April" else if m = 4 then "May" else if m = 5 then "June"
  else if m = 6 then "July" else if m = 7 then "August" else if m = 8 then "September"
  else if m = 9 then "October" else if m = 10 then "November" else "December"

/-- `toLocaleString('en-US', { month: 'short', timeZone: 'UTC' })` table. -/
def monthShortName (m : Int) : String :=
  if m = 0 then "Jan" else if m = 1 then "Feb" else if m = 2 then "Mar"
  else if m = 3 then "Apr" else if m = 4 then "May" else if m = 5 then "Jun"
  else if m = 6 then "Jul" else if m = 7 then "Aug" else if m = 8 then "Sep"
  else if m = 9 then "Oct" else if m = 10 then "Nov" else "Dec"

/-- `monthLong(dt)` from the source. -/
def monthLong (dt : Int) : String := monthLongName (getUTCMonth dt)

/-- `monthShort(dt)` from the source. -/
def monthShort (dt : Int) : String := monthShortName (getUTCMonth dt)

/-! ### Generic facts about chained period lists -/

/-- Adjacency of consecutive periods: each period starts exactly one day
after the previous one ends. -/
def DayChained : List Period → Prop
  | [] => True
  | [_] => True
  | a :: b :: rest => b.start = addDays a.stop 1 ∧ DayChained (b :: rest)

theorem dayChained_cons (a : Period) (l : List Period) :
    DayChained (a :: l) ↔
      (∀ b, l.head? = some b → b.start = addDays a.stop 1) ∧ DayChained l := by
  cases l with
  | nil => simp [DayChained]
  | cons c l => simp [DayChained]

/-- `[f k, f (k+1), …, f (k+n-1)]`: the uniform shape of every generator's
output, indexed by an integer parameter. -/
def mapRange (f : Int → Period) (k : Int) (n : Nat) : List Period :=
  (List.range n).map (fun i : Nat => f (k + (i : Int)))

theorem mapRange_zero (f : Int → Period) (k : Int) : mapRange f k 0 = [] := rfl

theorem mapRange_succ (f : Int → Period) (k : Int) (m : Nat) :
    mapRange f k (m + 1) = f k :: mapRange f (k + 1) m := by
  unfold mapRange
  rw [List.range_succ_eq_map, List.map_cons, List.map_map]
  congr 1
  · congr 1
    push_cast
    ring
  · apply List.map_congr_left
    intro i _
    simp only [Function.comp]
    congr 1
    push_cast
    ring

theorem mapRange_ne_nil (f : Int → Period) (k : Int) (m : Nat) :
    mapRange f k (m + 1) ≠ [] := by
  rw [mapRange_succ]
  exact List.cons_ne_nil _ _

theorem mapRange_head (f : Int → Period) (k : Int) (m : Nat) :
    (mapRange f k (m + 1)).head? = some (f k) := by
  rw [mapRange_succ]
  rfl

theorem mapRange_getLast (f : Int → Period) : ∀ (m : Nat) (k : Int),
    (mapRange f k (m + 1)).getLast? = some (f (k + m)) := by
  intro m
  induction m with
  | zero =>
    intro k
    rw [mapRange_succ, mapRange_zero]
    simp
  | succ m' ih =>
    intro k
    rw [mapRange_succ f k, mapRange_succ f (k + 1), List.getLast?_cons_cons,
      ← mapRange_succ f (k + 1), ih (k + 1)]
    congr 1
    congr 1
    push_cast
    ring

theorem mapRange_mem (f : Int → Period) (k : Int) (n : Nat) (p : Period) :
    p ∈ mapRange f k n ↔ ∃ i : Nat, i < n ∧ p = f (k + i) := by
  unfold mapRange
  simp only [List.mem_map, List.mem_range]
  constructor
  · rintro ⟨i, hi, rfl⟩
    exact ⟨i, hi, rfl⟩
  · rintro ⟨i, hi, rfl⟩
    exact ⟨i, hi, rfl⟩

theorem mapRange_chained (f : Int → Period)
    (hstep : ∀ j : Int, (f (j + 1)).start = addDays (f j).stop 1) :
    ∀ (n : Nat) (k : Int), DayChained (mapRange f k n) := by
  intro n
  induction n with
  | zero => intro k; exact trivial
  | succ m ih =>
    intro k
    rw [mapRange_succ, dayChained_cons]
    refine ⟨?_, ih (k + 1)⟩
    intro b hb
    cases m with
    | zero => simp [mapRange_zero] at hb
    | succ m' =>
      rw [mapRange_head] at hb
      cases hb
      exact hstep k

theorem pairwise_start_lt_of_chained :
    ∀ l : List Period, DayChained l → (∀ p ∈ l, p.start ≤ p.stop) →
      List.Pairwise (fun a b => a.start < b.start) l := by
  intro l
  induction l with
  | nil => intro _ _; exact List.Pairwise.nil
  | cons a l ih =>
    intro hch hse
    rw [dayChained_cons] at hch
    have hpl := ih hch.2 (fun p hp => hse p (List.mem_cons_of_mem a hp))
    refine List.Pairwise.cons ?_ hpl
    intro b hb
    cases l with
    | nil => simp at hb
    | cons c l' =>
      have hlink := hch.1 c rfl
      have hac : a.start < c.start := by
        have h1 := hse a (List.mem_cons_self a _)
        rw [hlink, addDays_eq]
        unfold msPerDay
        omega
      rcases List.mem_cons.mp hb with hbc | hbl
      · rw [hbc]; exact hac
      · have := (List.pairwise_cons.mp hpl).1 b hbl
        omega

/-! ### Monthly periods (`buildMonthlyPeriods`, lines 168-184) -/

/-- The loop of `buildMonthlyPeriods`: iterate months while `cursor <= last`,
emitting `[1st of month .. last day of month]` with name
`"<MonthLong> <Year>"`. -/
def buildMonthlyAux (last cursor : Int) : List Period :=
  if _h : cursor ≤ last then
    { name := monthLong (startOfDayUTC (atUTC (getUTCFullYear cursor) (getUTCMonth cursor) 1))
        ++ " " ++ toString (getUTCFullYear cursor)
      start := startOfDayUTC (atUTC (getUTCFullYear cursor) (getUTCMonth cursor) 1)
      stop := startOfDayUTC (addDays (addMonths cursor 1) (-1)) }
      :: buildMonthlyAux last (addMonths cursor 1)
  else []
termination_by (dayOf last + 1 - dayOf cursor).toNat
decreasing_by
  have hb := monthFromDays_bracket (dayOf cursor)
  have hd : dayOf (addMonths cursor 1) = firstDayOfMonth (monthFromDays (dayOf cursor) + 1) := by
    rw [addMonths_eq, dayOf_mul]
  have hm := dayOf_mono _h
  omega

/-- `buildMonthlyPeriods(rangeStart, rangeEnd)`. -/
def buildMonthlyPeriods (rangeStart rangeEnd : Int) : List Period :=
  buildMonthlyAux (atUTC (getUTCFullYear rangeEnd) (getUTCMonth rangeEnd) 1)
    (atUTC (getUTCFullYear rangeStart) (getUTCMonth rangeStart) 1)

/-- The month period with absolute month index `k`, in closed form. -/
def monthlyPeriod (k : Int) : Period :=
  { name := monthLongName (k % 12) ++ " " ++ toString (k / 12)
    start := firstDayOfMonth k * msPerDay
    stop := (firstDayOfMonth (k + 1) - 1) * msPerDay }

theorem yearFromDays_firstDay (k : Int) : yearFromDays (firstDayOfMonth k) = k / 12 := by
  have h := monthFromDays_firstDay k
  have hr := monthInYear_range (yearFromDays (firstDayOfMonth k)) (firstDayOfMonth k)
  have hd := monthFromDays_def (firstDayOfMonth k)
  omega

theorem monthInYear_firstDay (k : Int) :
    monthInYear (yearFromDays (firstDayOfMonth k)) (firstDayOfMonth k) = k % 12 := by
  have h := monthFromDays_firstDay k
  have hr := monthInYear_range (yearFromDays (firstDayOfMonth k)) (firstDayOfMonth k)
  have hd := monthFromDays_def (firstDayOfMonth k)
  omega

theorem getUTCFullYear_midnight_first (k : Int) :
    getUTCFullYear (firstDayOfMonth k * msPerDay) = k / 12 := by
  unfold getUTCFullYear
  rw [dayOf_mul, yearFromDays_firstDay]

theorem getUTCMonth_midnight_first (k : Int) :
    getUTCMonth (firstDayOfMonth k * msPerDay) = k % 12 := by
  unfold getUTCMonth
  rw [dayOf_mul, monthInYear_firstDay]

theorem mk_month_index (t : Int) :
    12 * getUTCFullYear t + getUTCMonth t = monthFromDays (dayOf t) := rfl

theorem atUTC_month_first (t : Int) :
    atUTC (getUTCFullYear t) (getUTCMonth t) 1
      = firstDayOfMonth (monthFromDays (dayOf t)) * msPerDay := by
  rw [atUTC_eq, mk_month_index]
  ring

theorem firstDayOfMonth_le_iff (k k' : Int) :
    firstDayOfMonth k ≤ firstDayOfMonth k' ↔ k ≤ k' := by
  constructor
  · intro h
    by_contra hlt
    have := firstDayOfMonth_strict (show k' < k by omega)
    omega
  · exact firstDayOfMonth_mono

/-- Closed form of the monthly loop. -/
theorem buildMonthlyAux_closed (kL : Int) : ∀ (count : Nat) (k : Int),
    count = (kL + 1 - k).toNat →
    buildMonthlyAux (firstDayOfMonth kL * msPerDay) (firstDayOfMonth k * msPerDay)
      = mapRange monthlyPeriod k count := by
  intro count
  induction count with
  | zero =>
    intro k hc
    rw [buildMonthlyAux.eq_def, mapRange_zero]
    rw [dif_neg]
    rw [midnight_le_iff, firstDayOfMonth_le_iff]
    omega
  | succ m ih =>
    intro k hc
    have hkle : k ≤ kL := by omega
    rw [buildMonthlyAux.eq_def]
    rw [dif_pos (by rw [midnight_le_iff, firstDayOfMonth_le_iff]; exact hkle)]
    have hnext : addMonths (firstDayOfMonth k * msPerDay) 1
        = firstDayOfMonth (k + 1) * msPerDay := by
      rw [addMonths_eq, monthFromDays_dayOf_midnight]
    rw [hnext]
    have hstart : startOfDayUTC (atUTC (getUTCFullYear (firstDayOfMonth k * msPerDay))
        (getUTCMonth (firstDayOfMonth k * msPerDay)) 1) = firstDayOfMonth k * msPerDay := by
      rw [atUTC_month_first, monthFromDays_dayOf_midnight, startOfDayUTC_midnight]
    have hstop : startOfDayUTC (addDays (firstDayOfMonth (k + 1) * msPerDay) (-1))
        = (firstDayOfMonth (k + 1) - 1) * msPerDay := by
      rw [addDays_eq, show firstDayOfMonth (k + 1) * msPerDay + -1 * msPerDay
          = (firstDayOfMonth (k + 1) - 1) * msPerDay from by ring, startOfDayUTC_midnight]
    rw [hstart, hstop, ih (k + 1) (by omega), mapRange_succ]
    congr 1
    unfold monthlyPeriod
    rw [Period.mk.injEq]
    refine ⟨?_, rfl, rfl⟩
    unfold monthLong
    rw [getUTCMonth_midnight_first, getUTCFullYear_midnight_first]

theorem dayOf_add_mul (t c : Int) : dayOf (t + c * msPerDay) = dayOf t + c := by
  unfold dayOf msPerDay
  omega

theorem startOfDay_addDays (t c : Int) :
    startOfDayUTC (addDays t c) = (dayOf t + c) * msPerDay := by
  rw [addDays_eq, startOfDayUTC_eq, dayOf_add_mul]

theorem midnight_le_any (a t : Int) : a * msPerDay ≤ t ↔ a ≤ dayOf t := by
  unfold dayOf msPerDay
  omega

theorem dayOf_endOfDay (t : Int) : dayOf (endOfDayUTC t) = dayOf t := by
  rw [endOfDayUTC_eq]
  exact dayOf_mul_add _ _ (by norm_num) (by unfold msPerDay; norm_num)

theorem mapRange_congr (f g : Int → Period) (k k' : Int) (n : Nat)
    (h : ∀ i : Nat, i < n → f (k + i) = g (k' + i)) : mapRange f k n = mapRange g k' n := by
  unfold mapRange
  apply List.map_congr_left
  intro i hi
  exact h i (List.mem_range.mp hi)

/-! ### Weekly periods (`buildWeeklyPeriods`, lines 186-209) -/

/-- `(firstMonthDay === 0 ? 1 : (firstMonthDay <= 1 ? 0 : 8 - firstMonthDay))`. -/
def firstMondayDelta (firstMonthDay : Int) : Int :=
  if firstMonthDay = 0 then 1 else if firstMonthDay ≤ 1 then 0 else 8 - firstMonthDay

/-- The first Monday on or after the 1st of `monday`'s month. -/
def firstMondayOfMonth (monday : Int) : Int :=
  startOfDayUTC (addDays (atUTC (getUTCFullYear monday) (getUTCMonth monday) 1)
    (firstMondayDelta (getUTCDay (atUTC (getUTCFullYear monday) (getUTCMonth monday) 1))))

/-- `weekNum`: 1-based week-of-month index by counting Mondays
(`Math.floor((monday - firstMonday) / (7*24*3600*1000)) + 1`). -/
def weekNumOf (monday : Int) : Int :=
  (monday - firstMondayOfMonth monday) / (7 * 24 * 3600 * 1000) + 1

/-- Loop body of `buildWeeklyPeriods`: the Monday-to-Sunday period at
`monday`, named `"<MonShort> week <N> <Year>"`. -/
def weeklyPeriodOf (monday : Int) : Period :=
  { name := monthShort monday ++ " week " ++ toString (weekNumOf monday) ++ " "
      ++ toString (getUTCFullYear monday)
    start := monday
    stop := startOfDayUTC (addDays monday 6) }

/-- The loop of `buildWeeklyPeriods`: emit weeks while
`monday <= endBoundary`. -/
def buildWeeklyAux (endBoundary monday : Int) : List Period :=
  if _h : monday ≤ endBoundary then
    weeklyPeriodOf monday :: buildWeeklyAux endBoundary (startOfDayUTC (addDays monday 7))
  else []
termination_by (dayOf endBoundary + 1 - dayOf monday).toNat
decreasing_by
  have h1 : dayOf (startOfDayUTC (addDays monday 7)) = dayOf monday + 7 := by
    rw [startOfDay_addDays, dayOf_mul]
  have hm := dayOf_mono _h
  omega

/-- `buildWeeklyPeriods(rangeStart, rangeEnd)`: the first Monday is the
Monday on or before `rangeStart` (Sunday treated as offset -6). -/
def buildWeeklyPeriods (rangeStart rangeEnd : Int) : List Period :=
  buildWeeklyAux (endOfDayUTC rangeEnd)
    (startOfDayUTC (addDays rangeStart
      (if getUTCDay rangeStart = 0 then -6 else 1 - getUTCDay rangeStart)))

/-- Closed form of the weekly loop: `count` periods stepping by 7 days. -/
theorem buildWeeklyAux_closed (endB : Int) : ∀ (count : Nat) (m0 : Int),
    count = ((dayOf endB - m0) / 7 + 1).toNat →
    buildWeeklyAux endB (m0 * msPerDay)
      = mapRange (fun j => weeklyPeriodOf ((m0 + 7 * j) * msPerDay)) 0 count := by
  intro count
  induction count with
  | zero =>
    intro m0 hc
    rw [buildWeeklyAux.eq_def, mapRange_zero]
    rw [dif_neg]
    rw [midnight_le_any]
    omega
  | succ m ih =>
    intro m0 hc
    rw [buildWeeklyAux.eq_def]
    rw [dif_pos (by rw [midnight_le_any]; omega)]
    have hnext : startOfDayUTC (addDays (m0 * msPerDay) 7) = (m0 + 7) * msPerDay := by
      rw [startOfDay_addDays, dayOf_mul]
    rw [hnext, ih (m0 + 7) (by omega), mapRange_succ]
    rw [List.cons.injEq]
    refine ⟨?_, ?_⟩
    · rw [show (m0 + 7 * (0 : Int)) * msPerDay = m0 * msPerDay from by ring]
    · apply mapRange_congr
      intro i _
      rw [show m0 + 7 + 7 * ((0 : Int) + (i : Int)) = m0 + 7 * ((0 : Int) + 1 + (i : Int)) from by
        ring]

/-! ### Quarterly periods (`buildQuarterlyPeriods`, lines 211-244) -/

/-- `Number(x) || 1`: `Number` of a non-numeric string is `NaN`; `NaN` and
`0` are falsy, so both fall back to `1`. -/
def numberOr1 : Option Int → Int
  | none => 1
  | some v => if v = 0 then 1 else v

/-- `Math.max(1, Math.min(12, Number(anchorMonth1to12) || 1)) - 1`: the
0-based anchor month. -/
def jsQuarterAnchor (a : Option Int) : Int := max 1 (min 12 (numberOr1 a)) - 1

/-- `(12 + (m - anchor)) % 3`: months since the last quarter start (the
operand is nonnegative for the reachable `m`, `anchor` in `0..11`, where
the JavaScript remainder agrees with `%` on `Int`). -/
def quarterOffset (anchor m : Int) : Int := (12 + (m - anchor)) % 3

/-- `quarterStartFor(date)`: the quarter start on or before `date`. -/
def quarterStartFor (anchor date : Int) : Int :=
  atUTC (getUTCFullYear date + (getUTCMonth date - quarterOffset anchor (getUTCMonth date)) / 12)
    ((getUTCMonth date - quarterOffset anchor (getUTCMonth date) + 12) % 12) 1

/-- `nextQuarterStart(date)`: `atUTC(y, m + 3, 1)`. -/
def nextQuarterStart (date : Int) : Int :=
  atUTC (getUTCFullYear date) (getUTCMonth date + 3) 1

/-- `qIndex`: `floor(posWithinYear / 3) + 1` where
`posWithinYear = (12 + (m - anchor)) % 12`. -/
def quarterIndexOf (anchor qStart : Int) : Int :=
  (12 + (getUTCMonth qStart - anchor)) % 12 / 3 + 1

/-- Loop body of `buildQuarterlyPeriods`: one quarter starting at `qStart`,
named `"Q<index> <Year>"`. -/
def quarterlyPeriodOf (anchor qStart : Int) : Period :=
  { name := "Q" ++ toString (quarterIndexOf anchor qStart) ++ " "
      ++ toString (getUTCFullYear qStart)
    start := qStart
    stop := startOfDayUTC (addDays (nextQuarterStart qStart) (-1)) }

theorem quarterStartFor_eq (anchor date : Int) :
    quarterStartFor anchor date
      = firstDayOfMonth (monthFromDays (dayOf date)
          - quarterOffset anchor (getUTCMonth date)) * msPerDay := by
  unfold quarterStartFor
  rw [atUTC_eq]
  rw [show 12 * (getUTCFullYear date
        + (getUTCMonth date - quarterOffset anchor (getUTCMonth date)) / 12)
      + (getUTCMonth date - quarterOffset anchor (getUTCMonth date) + 12) % 12
      = monthFromDays (dayOf date) - quarterOffset anchor (getUTCMonth date) from by
    rw [← mk_month_index]
    omega]
  ring

theorem nextQuarterStart_eq (t : Int) :
    nextQuarterStart t = firstDayOfMonth (monthFromDays (dayOf t) + 3) * msPerDay := by
  unfold nextQuarterStart
  rw [atUTC_eq]
  rw [show 12 * getUTCFullYear t + (getUTCMonth t + 3) = monthFromDays (dayOf t) + 3 from by
    rw [← mk_month_index]
    ring]
  ring

/-- The loop of `buildQuarterlyPeriods`: emit quarters while
`qStart <= boundary`. -/
def buildQuarterlyAux (anchor boundary qStart : Int) : List Period :=
  if _h : qStart ≤ boundary then
    quarterlyPeriodOf anchor qStart :: buildQuarterlyAux anchor boundary (nextQuarterStart qStart)
  else []
termination_by (dayOf boundary + 1 - dayOf qStart).toNat
decreasing_by
  have hb := monthFromDays_bracket (dayOf qStart)
  have hd : dayOf (nextQuarterStart qStart)
      = firstDayOfMonth (monthFromDays (dayOf qStart) + 3) := by
    rw [nextQuarterStart_eq, dayOf_mul]
  have hmono := firstDayOfMonth_mono
    (show monthFromDays (dayOf qStart) + 1 ≤ monthFromDays (dayOf qStart) + 3 by omega)
  have hm := dayOf_mono _h
  omega

/-- `buildQuarterlyPeriods(rangeStart, rangeEnd, anchorMonth1to12)`; the
anchor argument models `Number(env) || 1` (with `none` for a non-numeric
string). -/
def buildQuarterlyPeriods (rangeStart rangeEnd : Int) (anchorMonth1to12 : Option Int) :
    List Period :=
  buildQuarterlyAux (jsQuarterAnchor anchorMonth1to12)
    (atUTC (getUTCFullYear rangeEnd) (getUTCMonth rangeEnd) 1)
    (quarterStartFor (jsQuarterAnchor anchorMonth1to12) rangeStart)

/-- The quarter period starting at month index `k`, in closed form. -/
def quarterlyPeriodK (anchor k : Int) : Period :=
  { name := "Q" ++ toString ((12 + (k % 12 - anchor)) % 12 / 3 + 1) ++ " "
      ++ toString (k / 12)
    start := firstDayOfMonth k * msPerDay
    stop := (firstDayOfMonth (k + 3) - 1) * msPerDay }

theorem quarterlyPeriodOf_midnight (anchor k : Int) :
    quarterlyPeriodOf anchor (firstDayOfMonth k * msPerDay) = quarterlyPeriodK anchor k := by
  unfold quarterlyPeriodOf quarterlyPeriodK quarterIndexOf
  rw [getUTCMonth_midnight_first, getUTCFullYear_midnight_first, nextQuarterStart_eq,
    monthFromDays_dayOf_midnight, addDays_eq,
    show firstDayOfMonth (k + 3) * msPerDay + -1 * msPerDay
      = (firstDayOfMonth (k + 3) - 1) * msPerDay from by ring,
    startOfDayUTC_midnight]

/-- Closed form of the quarterly loop: `count` quarters stepping by
3 months. -/
theorem buildQuarterlyAux_closed (anchor kB : Int) : ∀ (count : Nat) (k : Int),
    count = ((kB - k) / 3 + 1).toNat →
    buildQuarterlyAux anchor (firstDayOfMonth kB * msPerDay) (firstDayOfMonth k * msPerDay)
      = mapRange (fun j => quarterlyPeriodK anchor (k + 3 * j)) 0 count := by
  intro count
  induction count with
  | zero =>
    intro k hc
    rw [buildQuarterlyAux.eq_def, mapRange_zero]
    rw [dif_neg]
    rw [midnight_le_iff, firstDayOfMonth_le_iff]
    omega
  | succ m ih =>
    intro k hc
    rw [buildQuarterlyAux.eq_def]
    rw [dif_pos (by rw [midnight_le_iff, firstDayOfMonth_le_iff]; omega)]
    have hnext : nextQuarterStart (firstDayOfMonth k * msPerDay)
        = firstDayOfMonth (k + 3) * msPerDay := by
      rw [nextQuarterStart_eq, monthFromDays_dayOf_midnight]
    rw [hnext, ih (k + 3) (by omega), mapRange_succ, quarterlyPeriodOf_midnight,
      List.cons.injEq]
    refine ⟨?_, ?_⟩
    · rw [show k + 3 * (0 : Int) = k from by ring]
    · apply mapRange_congr
      intro i _
      rw [show k + 3 + 3 * ((0 : Int) + (i : Int)) = k + 3 * ((0 : Int) + 1 + (i : Int)) from by
        ring]

/-! ### Yearly periods (`buildYearlyPeriods`, lines 246-261) -/

/-- The loop of `buildYearlyPeriods`: one period per calendar year,
`[Jan 1 .. Dec 31]`, named `"<Year>"`. -/
def buildYearlyAux (lastYear year : Int) : List Period :=
  if _h : year ≤ lastYear then
    { name := toString year
      start := startOfDayUTC (atUTC year 0 1)
      stop := startOfDayUTC (atUTC year 11 31) }
      :: buildYearlyAux lastYear (year + 1)
  else []
termination_by (lastYear + 1 - year).toNat
decreasing_by omega

/-- `buildYearlyPeriods(rangeStart, rangeEnd)`. -/
def buildYearlyPeriods (rangeStart rangeEnd : Int) : List Period :=
  buildYearlyAux (getUTCFullYear rangeEnd) (getUTCFullYear rangeStart)

/-- The year period of year `y`, in closed form. -/
def yearlyPeriod (y : Int) : Period :=
  { name := toString y
    start := firstDayOfMonth (12 * y) * msPerDay
    stop := (firstDayOfMonth (12 * y + 11) + 30) * msPerDay }

theorem atUTC_jan1 (y : Int) :
    startOfDayUTC (atUTC y 0 1) = firstDayOfMonth (12 * y) * msPerDay := by
  rw [atUTC_eq, show 12 * y + 0 = 12 * y from by ring,
    show (firstDayOfMonth (12 * y) + (1 - 1)) * msPerDay = firstDayOfMonth (12 * y) * msPerDay
      from by ring, startOfDayUTC_midnight]

theorem atUTC_dec31 (y : Int) :
    startOfDayUTC (atUTC y 11 31) = (firstDayOfMonth (12 * y + 11) + 30) * msPerDay := by
  rw [atUTC_eq, show (firstDayOfMonth (12 * y + 11) + (31 - 1)) * msPerDay
      = (firstDayOfMonth (12 * y + 11) + 30) * msPerDay from by ring, startOfDayUTC_midnight]

/-- Closed form of the yearly loop. -/
theorem buildYearlyAux_closed (yL : Int) : ∀ (count : Nat) (y : Int),
    count = (yL + 1 - y).toNat →
    buildYearlyAux yL y = mapRange yearlyPeriod y count := by
  intro count
  induction count with
  | zero =>
    intro y hc
    rw [buildYearlyAux.eq_def, mapRange_zero]
    rw [dif_neg]
    omega
  | succ m ih =>
    intro y hc
    rw [buildYearlyAux.eq_def]
    rw [dif_pos (by omega)]
    rw [ih (y + 1) (by omega), mapRange_succ, atUTC_jan1, atUTC_dec31]
    rfl

/-- December has 31 days. -/
theorem firstDayOfMonth_dec (y : Int) :
    firstDayOfMonth (12 * y + 12) = firstDayOfMonth (12 * y + 11) + 31 := by
  unfold firstDayOfMonth
  omega

theorem yearFromDays_mono {a b : Int} (h : a ≤ b) : yearFromDays a ≤ yearFromDays b := by
  have hk := monthFromDays_mono h
  have hda := monthFromDays_def a
  have hdb := monthFromDays_def b
  have hra := monthInYear_range (yearFromDays a) a
  have hrb := monthInYear_range (yearFromDays b) b
  omega

/-! ### Generator instantiations in closed form -/

theorem buildMonthlyPeriods_eq (rs re : Int) :
    buildMonthlyPeriods rs re
      = mapRange monthlyPeriod (monthFromDays (dayOf rs))
          ((monthFromDays (dayOf re) + 1 - monthFromDays (dayOf rs)).toNat) := by
  unfold buildMonthlyPeriods
  rw [atUTC_month_first rs, atUTC_month_first re]
  exact buildMonthlyAux_closed _ _ _ rfl

/-- Day number of the first generated Monday: `rangeStart`'s day moved back
to the Monday on or before it. -/
def mondayStartDay (rs : Int) : Int :=
  dayOf rs + (if getUTCDay rs = 0 then -6 else 1 - getUTCDay rs)

theorem buildWeeklyPeriods_eq (rs re : Int) :
    buildWeeklyPeriods rs re
      = mapRange (fun j => weeklyPeriodOf ((mondayStartDay rs + 7 * j) * msPerDay)) 0
          ((dayOf re - mondayStartDay rs) / 7 + 1).toNat := by
  unfold buildWeeklyPeriods mondayStartDay
  rw [startOfDay_addDays]
  exact buildWeeklyAux_closed _ _ _ (by rw [dayOf_endOfDay])

/-- Month index of the first generated quarter start. -/
def quarterStartMonth (a : Option Int) (rs : Int) : Int :=
  monthFromDays (dayOf rs) - quarterOffset (jsQuarterAnchor a) (getUTCMonth rs)

theorem buildQuarterlyPeriods_eq (rs re : Int) (a : Option Int) :
    buildQuarterlyPeriods rs re a
      = mapRange (fun j => quarterlyPeriodK (jsQuarterAnchor a) (quarterStartMonth a rs + 3 * j)) 0
          ((monthFromDays (dayOf re) - quarterStartMonth a rs) / 3 + 1).toNat := by
  unfold buildQuarterlyPeriods quarterStartMonth
  rw [atUTC_month_first re, quarterStartFor_eq]
  exact buildQuarterlyAux_closed _ _ _ _ rfl

theorem buildYearlyPeriods_eq (rs re : Int) :
    buildYearlyPeriods rs re
      = mapRange yearlyPeriod (yearFromDays (dayOf rs))
          ((yearFromDays (dayOf re) + 1 - yearFromDays (dayOf rs)).toNat) := by
  unfold buildYearlyPeriods getUTCFullYear
  exact buildYearlyAux_closed _ _ _ rfl

/-! ### Per-period facts -/

theorem monthlyPeriod_start_le_stop (k : Int) :
    (monthlyPeriod k).start ≤ (monthlyPeriod k).stop := by
  show firstDayOfMonth k * msPerDay ≤ (firstDayOfMonth (k + 1) - 1) * msPerDay
  rw [midnight_le_iff]
  have := firstDayOfMonth_succ_bounds k
  omega

theorem monthlyPeriod_step (j : Int) :
    (monthlyPeriod (j + 1)).start = addDays (monthlyPeriod j).stop 1 := by
  show firstDayOfMonth (j + 1) * msPerDay
    = addDays ((firstDayOfMonth (j + 1) - 1) * msPerDay) 1
  rw [addDays_eq]
  ring

theorem weeklyPeriodOf_start (m : Int) :
    (weeklyPeriodOf (m * msPerDay)).start = m * msPerDay := rfl

theorem weeklyPeriodOf_stop (m : Int) :
    (weeklyPeriodOf (m * msPerDay)).stop = (m + 6) * msPerDay := by
  show startOfDayUTC (addDays (m * msPerDay) 6) = (m + 6) * msPerDay
  rw [startOfDay_addDays, dayOf_mul]

theorem quarterlyPeriodK_start_le_stop (anchor k : Int) :
    (quarterlyPeriodK anchor k).start ≤ (quarterlyPeriodK anchor k).stop := by
  show firstDayOfMonth k * msPerDay ≤ (firstDayOfMonth (k + 3) - 1) * msPerDay
  rw [midnight_le_iff]
  have h1 := firstDayOfMonth_succ_bounds k
  have h2 := firstDayOfMonth_mono (show k + 1 ≤ k + 3 by omega)
  omega

theorem yearlyPeriod_start_le_stop (y : Int) :
    (yearlyPeriod y).start ≤ (yearlyPeriod y).stop := by
  show firstDayOfMonth (12 * y) * msPerDay ≤ (firstDayOfMonth (12 * y + 11) + 30) * msPerDay
  rw [midnight_le_iff]
  have := firstDayOfMonth_mono (show 12 * y ≤ 12 * y + 11 by omega)
  omega

theorem yearlyPeriod_step (j : Int) :
    (yearlyPeriod (j + 1)).start = addDays (yearlyPeriod j).stop 1 := by
  show firstDayOfMonth (12 * (j + 1)) * msPerDay
    = addDays ((firstDayOfMonth (12 * j + 11) + 30) * msPerDay) 1
  rw [addDays_eq, show 12 * (j + 1) = 12 * j + 12 from by ring, firstDayOfMonth_dec]
  ring

theorem quarterOffset_bounds (anchor m : Int) :
    0 ≤ quarterOffset anchor m ∧ quarterOffset anchor m < 3 := by
  unfold quarterOffset
  omega

/-! ### The continuity property (gap-free, non-overlapping, covering) -/

/-- What claim C1 asks of a generated list for the range `[rs, re]`:
nonempty, first period starts on or before `rs`'s day, last period ends on
or after `re`'s day, consecutive periods are adjacent (start = previous end
+ 1 day), and the list is strictly ordered by start. -/
def coversRange (rs re : Int) (l : List Period) : Prop :=
  l ≠ [] ∧
  (∀ p, l.head? = some p → dayOf p.start ≤ dayOf rs) ∧
  (∀ p, l.getLast? = some p → dayOf re ≤ dayOf p.stop) ∧
  DayChained l ∧
  List.Pairwise (fun a b => a.start < b.start) l

theorem buildMonthlyPeriods_covers (rs re : Int) (h : rs ≤ re) :
    coversRange rs re (buildMonthlyPeriods rs re) := by
  have hk := monthFromDays_mono (dayOf_mono h)
  have hbs := monthFromDays_bracket (dayOf rs)
  have hbe := monthFromDays_bracket (dayOf re)
  rw [buildMonthlyPeriods_eq]
  obtain ⟨m, hm⟩ : ∃ m : Nat,
      (monthFromDays (dayOf re) + 1 - monthFromDays (dayOf rs)).toNat = m + 1 :=
    ⟨(monthFromDays (dayOf re) - monthFromDays (dayOf rs)).toNat, by omega⟩
  rw [hm]
  have hchain := mapRange_chained monthlyPeriod monthlyPeriod_step (m + 1)
    (monthFromDays (dayOf rs))
  refine ⟨mapRange_ne_nil _ _ _, ?_, ?_, hchain, ?_⟩
  · intro p hp
    rw [mapRange_head] at hp
    injection hp with hp
    rw [← hp]
    show dayOf (firstDayOfMonth (monthFromDays (dayOf rs)) * msPerDay) ≤ dayOf rs
    rw [dayOf_mul]
    exact hbs.1
  · intro p hp
    rw [mapRange_getLast] at hp
    injection hp with hp
    rw [← hp]
    show dayOf re ≤ dayOf ((firstDayOfMonth (monthFromDays (dayOf rs) + (m : Int) + 1) - 1)
      * msPerDay)
    rw [dayOf_mul]
    rw [show monthFromDays (dayOf rs) + (m : Int) + 1 = monthFromDays (dayOf re) + 1 from by
      omega]
    omega
  · exact pairwise_start_lt_of_chained _ hchain (by
      intro p hp
      rw [mapRange_mem] at hp
      obtain ⟨i, _, rfl⟩ := hp
      exact monthlyPeriod_start_le_stop _)

theorem buildWeeklyPeriods_covers (rs re : Int) (h : rs ≤ re) :
    coversRange rs re (buildWeeklyPeriods rs re) := by
  have hd := dayOf_mono h
  have hwd : 0 ≤ getUTCDay rs ∧ getUTCDay rs ≤ 6 := by
    unfold getUTCDay
    omega
  have hm0 : mondayStartDay rs ≤ dayOf rs := by
    unfold mondayStartDay
    split_ifs <;> omega
  rw [buildWeeklyPeriods_eq]
  obtain ⟨m, hm⟩ : ∃ m : Nat, ((dayOf re - mondayStartDay rs) / 7 + 1).toNat = m + 1 :=
    ⟨((dayOf re - mondayStartDay rs) / 7).toNat, by omega⟩
  rw [hm]
  have hstep : ∀ j : Int,
      ((fun j => weeklyPeriodOf ((mondayStartDay rs + 7 * j) * msPerDay)) (j + 1)).start
      = addDays ((fun j => weeklyPeriodOf ((mondayStartDay rs + 7 * j) * msPerDay)) j).stop 1 := by
    intro j
    rw [weeklyPeriodOf_start, weeklyPeriodOf_stop, addDays_eq]
    ring
  have hchain := mapRange_chained
    (fun j => weeklyPeriodOf ((mondayStartDay rs + 7 * j) * msPerDay)) hstep (m + 1) 0
  refine ⟨mapRange_ne_nil _ _ _, ?_, ?_, hchain, ?_⟩
  · intro p hp
    rw [mapRange_head] at hp
    injection hp with hp
    rw [← hp]
    rw [weeklyPeriodOf_start, show mondayStartDay rs + 7 * (0 : Int) = mondayStartDay rs from by
      ring, dayOf_mul]
    exact hm0
  · intro p hp
    rw [mapRange_getLast] at hp
    injection hp with hp
    rw [← hp]
    rw [weeklyPeriodOf_stop, dayOf_mul]
    omega
  · exact pairwise_start_lt_of_chained _ hchain (by
      intro p hp
      rw [mapRange_mem] at hp
      obtain ⟨i, _, rfl⟩ := hp
      rw [weeklyPeriodOf_start, weeklyPeriodOf_stop, midnight_le_iff]
      omega)

theorem quarterlyPeriodK_start (anchor k : Int) :
    (quarterlyPeriodK anchor k).start = firstDayOfMonth k * msPerDay := rfl

theorem quarterlyPeriodK_stop (anchor k : Int) :
    (quarterlyPeriodK anchor k).stop = (firstDayOfMonth (k + 3) - 1) * msPerDay := rfl

theorem buildQuarterlyPeriods_covers (rs re : Int) (a : Option Int) (h : rs ≤ re) :
    coversRange rs re (buildQuarterlyPeriods rs re a) := by
  have hk := monthFromDays_mono (dayOf_mono h)
  have hbs := monthFromDays_bracket (dayOf rs)
  have hbe := monthFromDays_bracket (dayOf re)
  have hoff := quarterOffset_bounds (jsQuarterAnchor a) (getUTCMonth rs)
  have hq0 : quarterStartMonth a rs ≤ monthFromDays (dayOf rs) := by
    unfold quarterStartMonth
    omega
  rw [buildQuarterlyPeriods_eq]
  obtain ⟨m, hm⟩ : ∃ m : Nat,
      ((monthFromDays (dayOf re) - quarterStartMonth a rs) / 3 + 1).toNat = m + 1 :=
    ⟨((monthFromDays (dayOf re) - quarterStartMonth a rs) / 3).toNat, by omega⟩
  rw [hm]
  have hstep : ∀ j : Int,
      ((fun j => quarterlyPeriodK (jsQuarterAnchor a) (quarterStartMonth a rs + 3 * j))
          (j + 1)).start
      = addDays ((fun j => quarterlyPeriodK (jsQuarterAnchor a) (quarterStartMonth a rs + 3 * j))
          j).stop 1 := by
    intro j
    show firstDayOfMonth (quarterStartMonth a rs + 3 * (j + 1)) * msPerDay
      = addDays ((firstDayOfMonth (quarterStartMonth a rs + 3 * j + 3) - 1) * msPerDay) 1
    rw [addDays_eq, show quarterStartMonth a rs + 3 * (j + 1)
      = quarterStartMonth a rs + 3 * j + 3 from by ring]
    ring
  have hchain := mapRange_chained
    (fun j => quarterlyPeriodK (jsQuarterAnchor a) (quarterStartMonth a rs + 3 * j))
    hstep (m + 1) 0
  refine ⟨mapRange_ne_nil _ _ _, ?_, ?_, hchain, ?_⟩
  · intro p hp
    rw [mapRange_head] at hp
    injection hp with hp
    rw [← hp, quarterlyPeriodK_start,
      show quarterStartMonth a rs + 3 * (0 : Int) = quarterStartMonth a rs from by ring,
      dayOf_mul]
    have := firstDayOfMonth_mono hq0
    omega
  · intro p hp
    rw [mapRange_getLast] at hp
    injection hp with hp
    rw [← hp, quarterlyPeriodK_stop, dayOf_mul]
    have hmono := firstDayOfMonth_mono (show monthFromDays (dayOf re) + 1
        ≤ quarterStartMonth a rs + 3 * ((0 : Int) + (m : Int)) + 3 from by omega)
    omega
  · exact pairwise_start_lt_of_chained _ hchain (by
      intro p hp
      rw [mapRange_mem] at hp
      obtain ⟨i, _, rfl⟩ := hp
      exact quarterlyPeriodK_start_le_stop _ _)

theorem buildYearlyPeriods_covers (rs re : Int) (h : rs ≤ re) :
    coversRange rs re (buildYearlyPeriods rs re) := by
  have hy := yearFromDays_mono (dayOf_mono h)
  have hbs := yearFromDays_bracket (dayOf rs)
  have hbe := yearFromDays_bracket (dayOf re)
  rw [buildYearlyPeriods_eq]
  obtain ⟨m, hm⟩ : ∃ m : Nat,
      (yearFromDays (dayOf re) + 1 - yearFromDays (dayOf rs)).toNat = m + 1 :=
    ⟨(yearFromDays (dayOf re) - yearFromDays (dayOf rs)).toNat, by omega⟩
  rw [hm]
  have hchain := mapRange_chained yearlyPeriod yearlyPeriod_step (m + 1)
    (yearFromDays (dayOf rs))
  refine ⟨mapRange_ne_nil _ _ _, ?_, ?_, hchain, ?_⟩
  · intro p hp
    rw [mapRange_head] at hp
    injection hp with hp
    rw [← hp]
    show dayOf (firstDayOfMonth (12 * yearFromDays (dayOf rs)) * msPerDay) ≤ dayOf rs
    rw [dayOf_mul]
    exact hbs.1
  · intro p hp
    rw [mapRange_getLast] at hp
    injection hp with hp
    rw [← hp]
    show dayOf re ≤ dayOf ((firstDayOfMonth (12 * (yearFromDays (dayOf rs) + (m : Int)) + 11)
      + 30) * msPerDay)
    rw [dayOf_mul]
    have hdec := firstDayOfMonth_dec (yearFromDays (dayOf rs) + (m : Int))
    rw [show 12 * (yearFromDays (dayOf rs) + (m : Int)) + 12
      = 12 * yearFromDays (dayOf re) + 12 from by omega] at hdec
    omega
  · exact pairwise_start_lt_of_chained _ hchain (by
      intro p hp
      rw [mapRange_mem] at hp
      obtain ⟨i, _, rfl⟩ := hp
      exact yearlyPeriod_start_le_stop _)

/-! ### Canonical midnight form of every generated period -/

/-- All starts and ends are UTC midnights (`00:00:00.000Z`), with
`start <= end`. -/
def MidnightPeriods (l : List Period) : Prop :=
  ∀ p ∈ l, (∃ a : Int, p.start = a * msPerDay) ∧ (∃ b : Int, p.stop = b * msPerDay)
    ∧ p.start ≤ p.stop

theorem buildMonthlyPeriods_midnight (rs re : Int) :
    MidnightPeriods (buildMonthlyPeriods rs re) := by
  intro p hp
  rw [buildMonthlyPeriods_eq, mapRange_mem] at hp
  obtain ⟨i, _, rfl⟩ := hp
  exact ⟨⟨_, rfl⟩, ⟨_, rfl⟩, monthlyPeriod_start_le_stop _⟩

theorem buildWeeklyPeriods_midnight (rs re : Int) :
    MidnightPeriods (buildWeeklyPeriods rs re) := by
  intro p hp
  rw [buildWeeklyPeriods_eq, mapRange_mem] at hp
  obtain ⟨i, _, rfl⟩ := hp
  refine ⟨⟨_, weeklyPeriodOf_start _⟩, ⟨_, weeklyPeriodOf_stop _⟩, ?_⟩
  rw [weeklyPeriodOf_start, weeklyPeriodOf_stop, midnight_le_iff]
  omega

theorem buildQuarterlyPeriods_midnight (rs re : Int) (a : Option Int) :
    MidnightPeriods (buildQuarterlyPeriods rs re a) := by
  intro p hp
  rw [buildQuarterlyPeriods_eq, mapRange_mem] at hp
  obtain ⟨i, _, rfl⟩ := hp
  exact ⟨⟨_, rfl⟩, ⟨_, rfl⟩, quarterlyPeriodK_start_le_stop _ _⟩

theorem buildYearlyPeriods_midnight (rs re : Int) :
    MidnightPeriods (buildYearlyPeriods rs re) := by
  intro p hp
  rw [buildYearlyPeriods_eq, mapRange_mem] at hp
  obtain ⟨i, _, rfl⟩ := hp
  exact ⟨⟨_, rfl⟩, ⟨_, rfl⟩, yearlyPeriod_start_le_stop _⟩

/-! ### Release records and existence test (lines 157-165)

A release's `timeframe?.startDate || timeframe?.start` resolves to an ISO
string or is absent; we model the resolved, parsed value.  In the source a
missing value makes `toYMDUTC` render the invalid key `"NaN-NaN-NaN"`,
which never equals the key of a real generated date; that is modelled by
`none`. -/

structure Release where
  id : String
  name : String
  tfStart : Option Int
  tfEnd : Option Int
deriving DecidableEq, Repr

def toYMDopt : Option Int → Option DayKey
  | some t => some (toYMDUTC t)
  | none => none

/-- `releaseWithTimeframeExists(existingReleases, start, end)`: some record
has both day keys equal to the period's. -/
def releaseWithTimeframeExists (existingReleases : List Release) (start stop : Int) : Bool :=
  existingReleases.any fun r =>
    (toYMDopt r.tfStart == some (toYMDUTC start)) && (toYMDopt r.tfEnd == some (toYMDUTC stop))

theorem releaseWithTimeframeExists_iff (existing : List Release) (s e : Int) :
    releaseWithTimeframeExists existing s e = true ↔
      ∃ r ∈ existing, toYMDopt r.tfStart = some (toYMDUTC s)
        ∧ toYMDopt r.tfEnd = some (toYMDUTC e) := by
  unfold releaseWithTimeframeExists
  rw [List.any_eq_true]
  constructor
  · rintro ⟨r, hr, hb⟩
    rw [Bool.and_eq_true, beq_iff_eq, beq_iff_eq] at hb
    exact ⟨r, hr, hb.1, hb.2⟩
  · rintro ⟨r, hr, h1, h2⟩
    refine ⟨r, hr, ?_⟩
    rw [Bool.and_eq_true, beq_iff_eq, beq_iff_eq]
    exact ⟨h1, h2⟩

/-! ### The Seeder (`ensureSeedForGroup`, lines 263-291)

The external store is abstracted by `createOutcome`: the result of
`createRelease` for a given period, either the created record or the thrown
error's message (a rejected promise and a thrown non-ok response are both
caught by the same `catch`). -/

structure SeedState where
  created : List Release
  failed : List (String × String)
deriving DecidableEq, Repr

/-- `if (!created.name) created.name = p.name` (empty string is falsy). -/
def withName (n : String) (r : Release) : Release :=
  if r.name = "" then { r with name := n } else r

/-- One iteration of the seeding loop: skip if an identical timeframe
exists, otherwise create, appending to `created` on success and to
`failed` on error (the loop continues either way). -/
def seedStep (existingReleases : List Release) (createOutcome : Period → Except String Release)
    (acc : SeedState) (p : Period) : SeedState :=
  if releaseWithTimeframeExists existingReleases p.start p.stop then acc
  else
    match createOutcome p with
    | Except.ok created => { acc with created := acc.created ++ [withName p.name created] }
    | Except.error msg => { acc with failed := acc.failed ++ [(p.name, msg)] }

/-- `ensureSeedForGroup(groupId, periods, existingReleases, created, failed,
granularity)`: no-op when `groupId` is undefined, else the loop above. -/
def ensureSeedForGroup (groupId : Option String) (periods : List Period)
    (existingReleases : List Release) (createOutcome : Period → Except String Release)
    (st : SeedState) : SeedState :=
  match groupId with
  | none => st
  | some _ => periods.foldl (seedStep existingReleases createOutcome) st

/-- The records a seeding pass creates: one per missing period whose
creation succeeds. -/
def seedCreatedOf (existing : List Release) (createOutcome : Period → Except String Release)
    (periods : List Period) : List Release :=
  periods.filterMap fun p =>
    if releaseWithTimeframeExists existing p.start p.stop then none
    else
      match createOutcome p with
      | Except.ok r => some (withName p.name r)
      | Except.error _ => none

/-- The failures a seeding pass records: one `(name, error)` pair per
missing period whose creation fails. -/
def seedFailedOf (existing : List Release) (createOutcome : Period → Except String Release)
    (periods : List Period) : List (String × String) :=
  periods.filterMap fun p =>
    if releaseWithTimeframeExists existing p.start p.stop then none
    else
      match createOutcome p with
      | Except.ok _ => none
      | Except.error msg => some (p.name, msg)

theorem seedFold_spec (existing : List Release) (co : Period → Except String Release) :
    ∀ (ps : List Period) (st : SeedState),
    ps.foldl (seedStep existing co) st
      = { created := st.created ++ seedCreatedOf existing co ps
          failed := st.failed ++ seedFailedOf existing co ps } := by
  intro ps
  induction ps with
  | nil =>
    intro st
    unfold seedCreatedOf seedFailedOf
    simp
  | cons p ps ih =>
    intro st
    rw [List.foldl_cons, ih]
    unfold seedCreatedOf seedFailedOf
    rw [List.filterMap_cons, List.filterMap_cons]
    unfold seedStep
    rcases hex : releaseWithTimeframeExists existing p.start p.stop with _ | _
    · rcases hco : co p with msg | r <;> simp
    · simp

theorem ensureSeedForGroup_spec (gid : String) (periods : List Period)
    (existing : List Release) (co : Period → Except String Release) (st : SeedState) :
    ensureSeedForGroup (some gid) periods existing co st
      = { created := st.created ++ seedCreatedOf existing co periods
          failed := st.failed ++ seedFailedOf existing co periods } :=
  seedFold_spec existing co periods st

theorem keyLE_toYMDUTC_iff (s t : Int) :
    keyLE (toYMDUTC s) (toYMDUTC t) = true ↔ dayOf s ≤ dayOf t := by
  rw [toYMDUTC_eq_keyOfDay, toYMDUTC_eq_keyOfDay]
  exact keyLE_day_iff (dayOf s) (dayOf t)

/-- The closed-interval test holds exactly when both bounds are present and
the day numbers are ordered `start ≤ d ≤ end`. -/
theorem isWithinClosedDay_iff (d : Int) (s? e? : Option Int) :
    isWithinClosedDay d s? e? = true ↔
      ∃ s e, s? = some s ∧ e? = some e ∧ dayOf s ≤ dayOf d ∧ dayOf d ≤ dayOf e := by
  cases s? with
  | none => simp [isWithinClosedDay]
  | some s =>
    cases e? with
    | none => simp [isWithinClosedDay]
    | some e =>
      unfold isWithinClosedDay
      rw [Bool.and_eq_true, keyLE_toYMDUTC_iff, keyLE_toYMDUTC_iff]
      constructor
      · rintro ⟨h1, h2⟩
        exact ⟨s, e, rfl, rfl, h1, h2⟩
      · rintro ⟨s', e', hs, he, h1, h2⟩
        cases hs
        cases he
        exact ⟨h1, h2⟩

/-! ### The assignment path (`upsertAssignmentForGroup`, lines 293-337, and
`setFeatureAssignmentV2`, lines 448-492)

The remote store is abstracted per call site:
`relsResp` is the `GET /entities/{id}/relationships?type=link` response
(`none` when `!existingRels.ok`, else the link target ids);
`groupReleasesInner` is the `listReleasesForGroupV2` call made inside
`setFeatureAssignmentV2`; `createLinkOk` is whether the final
`POST /relationships` succeeds.  The `DELETE` calls for stale links send
a request and ignore the response entirely (`deleteResponses` is accepted
but never read, exactly as the source never checks those responses). -/

inductive StoreOp
  | deleteLink (releaseId : String)
  | createLink (releaseId : String)
deriving DecidableEq, Repr

/-- `setFeatureAssignmentV2(featureId, releaseId, assigned, groupId)` with
`assigned = true`: remove the feature's links to other releases of the
group, then create the new link; the returned trace lists the issued store
calls in order.  (`assigned = false` deletes one link.) -/
def setFeatureAssignmentV2 (releaseId : String) (assigned : Bool)
    (relsResp : Option (List String)) (groupReleasesInner : Except String (List Release))
    (_deleteResponses : String → Bool) (createLinkOk : Bool) :
    Except String (List StoreOp) :=
  if assigned then
    match relsResp with
    | some rels =>
      match groupReleasesInner with
      | Except.error e => Except.error e
      | Except.ok groupReleases =>
        let groupReleaseIds := groupReleases.map Release.id
        let toRemove := rels.filter fun rid => groupReleaseIds.contains rid && rid != releaseId
        if createLinkOk then
          Except.ok (toRemove.map StoreOp.deleteLink ++ [StoreOp.createLink releaseId])
        else Except.error "POST relationships failed"
    | none =>
      -- `existingRels.ok` false: the removal block is skipped entirely
      if createLinkOk then Except.ok [StoreOp.createLink releaseId]
      else Except.error "POST relationships failed"
  else
    Except.ok [StoreOp.deleteLink releaseId]

inductive UpsertResult
  | skippedNoEnd
  | skippedNoGroup
  | skippedFetchFailed (msg : String)
  | noMatch
  | assigned (targetId : String) (ops : List StoreOp)
deriving DecidableEq, Repr

/-- `upsertAssignmentForGroup(feature, groupLabel, cache)`: skip without an
end date or group id, skip gracefully when the catalog fetch fails, find the
first release whose closed day interval contains the end date, and call
`setFeatureAssignment(feature.id, target.id, true, groupId)`.  The
per-feature cache only affects how `releasesFetch` is obtained upstream. -/
def upsertAssignmentForGroup (featureEnd? : Option Int) (groupId? : Option String)
    (releasesFetch : Except String (List Release))
    (relsResp : Option (List String)) (groupReleasesInner : Except String (List Release))
    (deleteResponses : String → Bool) (createLinkOk : Bool) :
    Except String UpsertResult :=
  match featureEnd? with
  | none => Except.ok UpsertResult.skippedNoEnd
  | some featureEnd =>
    match groupId? with
    | none => Except.ok UpsertResult.skippedNoGroup
    | some _groupId =>
      match releasesFetch with
      | Except.error msg => Except.ok (UpsertResult.skippedFetchFailed msg)
      | Except.ok releases =>
        match releases.find? (fun r => isWithinClosedDay featureEnd r.tfStart r.tfEnd) with
        | none => Except.ok UpsertResult.noMatch
        | some target =>
          match setFeatureAssignmentV2 target.id true relsResp groupReleasesInner
              deleteResponses createLinkOk with
          | Except.error e => Except.error e
          | Except.ok ops => Except.ok (UpsertResult.assigned target.id ops)

/-- Claim C4's ordering: the assignment is issued first, followed only by
removals. -/
def TraceAssignsThenRemoves (targetId : String) (ops : List StoreOp) : Prop :=
  ∃ dels, ops = StoreOp.createLink targetId :: dels
    ∧ ∀ o ∈ dels, ∃ rid, o = StoreOp.deleteLink rid

/-! ### The admin seeding operation (`POST /admin/seed-releases`,
lines 624-764) -/

inductive GLabel
  | weekly
  | monthly
  | quarterly
  | yearly
deriving DecidableEq, Repr

def glabels : List GLabel := [GLabel.weekly, GLabel.monthly, GLabel.quarterly, GLabel.yearly]

/-- The external environment of one seeding request: the clock, the
`QUARTER_START_MONTH` setting, the configured group ids, and the remote
store's responses (per-group catalog fetch and per-period creation). -/
structure AdminEnv where
  now : Int
  anchorMonthEnv : Option Int
  rgIds : GLabel → Option String
  remote : GLabel → Except String (List Release)
  createOutcome : GLabel → Period → Except String Release

/-- `listReleasesForGroupV2` returns `[]` (fulfilled) when the group id is
undefined; otherwise the remote call decides. -/
def listReleasesOutcome (rgIds : GLabel → Option String)
    (remote : GLabel → Except String (List Release)) (l : GLabel) :
    Except String (List Release) :=
  match rgIds l with
  | none => Except.ok []
  | some _ => remote l

def adminFetch (env : AdminEnv) (l : GLabel) : Except String (List Release) :=
  listReleasesOutcome env.rgIds env.remote l

def releasesOf : Except String (List Release) → List Release
  | Except.ok rs => rs
  | Except.error _ => []

def errOf : Except String (List Release) → Option String
  | Except.ok _ => none
  | Except.error m => some m

/-- `availableGroups`: the number of fulfilled catalog fetches. -/
def adminAvailable (env : AdminEnv) : Nat :=
  (glabels.filter fun l => (adminFetch env l).isOk).length

def adminRangeStart (env : AdminEnv) : Int := startOfDayUTC env.now

def adminRangeEnd (env : AdminEnv) : Int :=
  endOfDayUTC (addDays (atUTC (getUTCFullYear env.now + 1) (getUTCMonth env.now)
    (getUTCDate env.now)) 0)

def adminRangeEnd5 (env : AdminEnv) : Int :=
  endOfDayUTC (addDays (atUTC (getUTCFullYear env.now + 5) (getUTCMonth env.now)
    (getUTCDate env.now)) 0)

/-- The period list passed to `ensureSeedForGroup` for each group
(the handler reverses each generator's output before seeding). -/
def adminPeriods (env : AdminEnv) : GLabel → List Period
  | GLabel.weekly => (buildWeeklyPeriods (adminRangeStart env) (adminRangeEnd env)).reverse
  | GLabel.monthly => (buildMonthlyPeriods (adminRangeStart env) (adminRangeEnd env)).reverse
  | GLabel.quarterly =>
      (buildQuarterlyPeriods (adminRangeStart env) (adminRangeEnd env) env.anchorMonthEnv).reverse
  | GLabel.yearly => (buildYearlyPeriods (adminRangeStart env) (adminRangeEnd5 env)).reverse

/-- Seed one group if (and only if) its fetch was fulfilled. -/
def seedOneGroup (env : AdminEnv) (l : GLabel) (st : SeedState) : SeedState :=
  if (adminFetch env l).isOk then
    ensureSeedForGroup (env.rgIds l) (adminPeriods env l) (releasesOf (adminFetch env l))
      (env.createOutcome l) st
  else st

def adminSt1 (env : AdminEnv) : SeedState := seedOneGroup env GLabel.weekly { created := [], failed := [] }

def adminSt2 (env : AdminEnv) : SeedState := seedOneGroup env GLabel.monthly (adminSt1 env)

def adminSt3 (env : AdminEnv) : SeedState := seedOneGroup env GLabel.quarterly (adminSt2 env)

def adminSt4 (env : AdminEnv) : SeedState := seedOneGroup env GLabel.yearly (adminSt3 env)

/-- `groupData[label].created`: the growth of the shared `created`
accumulator while this group was being seeded. -/
def adminGroupCreated (env : AdminEnv) : GLabel → Nat
  | GLabel.weekly => (adminSt1 env).created.length
  | GLabel.monthly => (adminSt2 env).created.length - (adminSt1 env).created.length
  | GLabel.quarterly => (adminSt3 env).created.length - (adminSt2 env).created.length
  | GLabel.yearly => (adminSt4 env).created.length - (adminSt3 env).created.length

structure SeedGroupReport where
  status : String
  created : Nat
  error : Option String
deriving DecidableEq, Repr

inductive SeedResponse
  | failedDependency (groups : GLabel → SeedGroupReport)
  | ok (status : String) (groups : GLabel → SeedGroupReport)
      (createdNames : List String) (failedCreations : List (String × String))

/-- The `POST /admin/seed-releases` handler: fetch all four catalogs, answer
`424` with status `"failed"` when none is available, else seed each fetched
group in order and report per-group and overall statuses. -/
def adminSeedReleases (env : AdminEnv) : SeedResponse :=
  if adminAvailable env = 0 then
    SeedResponse.failedDependency
      (fun l => { status := "failed", created := 0, error := errOf (adminFetch env l) })
  else
    SeedResponse.ok
      (if adminAvailable env = 4 then "success"
       else if 0 < adminAvailable env then "partial_success" else "failed")
      (fun l =>
        { status := if (adminFetch env l).isOk then "success" else "failed"
          created := adminGroupCreated env l
          error := errOf (adminFetch env l) })
      ((adminSt4 env).created.map Release.name)
      (adminSt4 env).failed

def SeedResponse.isHardFailure : SeedResponse → Bool
  | SeedResponse.failedDependency _ => true
  | SeedResponse.ok _ _ _ _ => false

def SeedResponse.overall : SeedResponse → String
  | SeedResponse.failedDependency _ => "failed"
  | SeedResponse.ok s _ _ _ => s

def SeedResponse.group : SeedResponse → GLabel → SeedGroupReport
  | SeedResponse.failedDependency g => g
  | SeedResponse.ok _ g _ _ => g

/-- Creations reported by the response (the `424` response reports none:
no seeding is performed on the hard-failure path). -/
def SeedResponse.createdNames : SeedResponse → List String
  | SeedResponse.failedDependency _ => []
  | SeedResponse.ok _ _ ns _ => ns

theorem glabel_cases (P : GLabel → Prop) (hw : P GLabel.weekly) (hm : P GLabel.monthly)
    (hq : P GLabel.quarterly) (hy : P GLabel.yearly) : ∀ l, P l := by
  intro l
  cases l
  · exact hw
  · exact hm
  · exact hq
  · exact hy

theorem adminAvailable_eq_zero_iff (env : AdminEnv) :
    adminAvailable env = 0 ↔ ∀ l, (adminFetch env l).isOk = false := by
  unfold adminAvailable glabels
  constructor
  · intro h
    apply glabel_cases <;>
      rcases hw : (adminFetch env GLabel.weekly).isOk with _ | _ <;>
      rcases hm : (adminFetch env GLabel.monthly).isOk with _ | _ <;>
      rcases hq : (adminFetch env GLabel.quarterly).isOk with _ | _ <;>
      rcases hy : (adminFetch env GLabel.yearly).isOk with _ | _ <;>
      simp [hw, hm, hq, hy, List.filter] at h ⊢
  · intro h
    simp [List.filter, h GLabel.weekly, h GLabel.monthly, h GLabel.quarterly, h GLabel.yearly]

theorem seedOneGroup_created_length (env : AdminEnv) (l : GLabel) (st : SeedState) :
    (seedOneGroup env l st).created.length
      = st.created.length
        + (if (adminFetch env l).isOk then
             match env.rgIds l with
             | some _ => (seedCreatedOf (releasesOf (adminFetch env l)) (env.createOutcome l)
                 (adminPeriods env l)).length
             | none => 0
           else 0) := by
  unfold seedOneGroup
  rcases hok : (adminFetch env l).isOk with _ | _
  · simp
  · simp only [if_pos rfl]
    rcases hg : env.rgIds l with _ | gid
    · unfold ensureSeedForGroup
      simp
    · rw [ensureSeedForGroup_spec]
      simp

/-- Each group's reported creation count is exactly the number of records a
seeding pass over that group's own periods and catalog creates — regardless
of the other groups' outcomes. -/
theorem adminGroupCreated_eq (env : AdminEnv) (l : GLabel) :
    adminGroupCreated env l
      = (if (adminFetch env l).isOk then
           match env.rgIds l with
           | some _ => (seedCreatedOf (releasesOf (adminFetch env l)) (env.createOutcome l)
               (adminPeriods env l)).length
           | none => 0
         else 0) := by
  cases l
  · show (adminSt1 env).created.length = _
    unfold adminSt1
    rw [seedOneGroup_created_length]
    simp
  · show (adminSt2 env).created.length - (adminSt1 env).created.length = _
    unfold adminSt2
    rw [seedOneGroup_created_length]
    omega
  · show (adminSt3 env).created.length - (adminSt2 env).created.length = _
    unfold adminSt3
    rw [seedOneGroup_created_length]
    omega
  · show (adminSt4 env).created.length - (adminSt3 env).created.length = _
    unfold adminSt4
    rw [seedOneGroup_created_length]
    omega

/-! ### Facts for the quarterly claim (C7) -/

theorem monthFromDays_split (t : Int) :
    monthFromDays (dayOf t) = 12 * getUTCFullYear t + getUTCMonth t := rfl

theorem quarterStartMonth_le (a : Option Int) (rs : Int) :
    quarterStartMonth a rs ≤ monthFromDays (dayOf rs) := by
  have hoff := quarterOffset_bounds (jsQuarterAnchor a) (getUTCMonth rs)
  unfold quarterStartMonth
  omega

/-- The last generated quarter start is the quarter start on or before
`rangeEnd`: both lie in the same 3-month residue class relative to the
anchor and within the last 3 months before `rangeEnd`'s month. -/
theorem quarterly_last_eq (rs re : Int) (a : Option Int) (m : Nat)
    (hm : (m : Int) = (monthFromDays (dayOf re) - quarterStartMonth a rs) / 3) :
    quarterStartMonth a rs + 3 * ((0 : Int) + (m : Int)) = quarterStartMonth a re := by
  have hoffs := quarterOffset_bounds (jsQuarterAnchor a) (getUTCMonth rs)
  have hoffe := quarterOffset_bounds (jsQuarterAnchor a) (getUTCMonth re)
  have hsplit_s := monthFromDays_split rs
  have hsplit_e := monthFromDays_split re
  have hos : quarterOffset (jsQuarterAnchor a) (getUTCMonth rs)
      = (12 + (getUTCMonth rs - jsQuarterAnchor a)) % 3 := rfl
  have hoe : quarterOffset (jsQuarterAnchor a) (getUTCMonth re)
      = (12 + (getUTCMonth re - jsQuarterAnchor a)) % 3 := rfl
  unfold quarterStartMonth at *
  omega

/-! ### Facts for the weekly claim (C8) -/

theorem getUTCDay_mul (a : Int) : getUTCDay (a * msPerDay) = (a + 4) % 7 := by
  unfold getUTCDay
  rw [dayOf_mul]

/-- The first generated Monday is a Monday (day-of-week 1) lying at most six
days before `rangeStart`, on or before it. -/
theorem mondayStartDay_spec (rs : Int) :
    (mondayStartDay rs + 4) % 7 = 1 ∧ dayOf rs - 6 ≤ mondayStartDay rs
      ∧ mondayStartDay rs ≤ dayOf rs := by
  unfold mondayStartDay getUTCDay
  split_ifs with h
  · omega
  · omega

/-! ## Claim theorems -/

/-- C1: for every `rangeStart <= rangeEnd` (and any anchor for quarterly),
each of the four generators returns a nonempty list of periods ordered by
start that covers the requested range and is gap-free and non-overlapping:
every adjacent pair satisfies `next.start = previous.end + 1 day`. -/
theorem C1_generators_continuity (rs re : Int) (a : Option Int) (h : rs ≤ re) :
    coversRange rs re (buildWeeklyPeriods rs re) ∧
    coversRange rs re (buildMonthlyPeriods rs re) ∧
    coversRange rs re (buildQuarterlyPeriods rs re a) ∧
    coversRange rs re (buildYearlyPeriods rs re) :=
  ⟨buildWeeklyPeriods_covers rs re h, buildMonthlyPeriods_covers rs re h,
    buildQuarterlyPeriods_covers rs re a h, buildYearlyPeriods_covers rs re h⟩

theorem C1_generators_continuity_witness :
    (atUTC 2026 0 1 ≤ atUTC 2026 1 15) ∧
    (coversRange (atUTC 2026 0 1) (atUTC 2026 1 15)
        (buildWeeklyPeriods (atUTC 2026 0 1) (atUTC 2026 1 15)) ∧
      coversRange (atUTC 2026 0 1) (atUTC 2026 1 15)
        (buildMonthlyPeriods (atUTC 2026 0 1) (atUTC 2026 1 15)) ∧
      coversRange (atUTC 2026 0 1) (atUTC 2026 1 15)
        (buildQuarterlyPeriods (atUTC 2026 0 1) (atUTC 2026 1 15) (some 8)) ∧
      coversRange (atUTC 2026 0 1) (atUTC 2026 1 15)
        (buildYearlyPeriods (atUTC 2026 0 1) (atUTC 2026 1 15))) :=
  ⟨by decide, C1_generators_continuity (atUTC 2026 0 1) (atUTC 2026 1 15) (some 8) (by decide)⟩

/-- C2: `isWithinClosedDay(d, start, end)` is true exactly when both bounds
are present and `start`'s day ≤ `d`'s day ≤ `end`'s day (both inclusive,
time of day ignored); a date sharing the start or end day matches, and a
missing bound yields false. -/
theorem C2_closed_day_interval :
    (∀ (d : Int) (s? e? : Option Int),
      isWithinClosedDay d s? e? = true ↔
        ∃ s e, s? = some s ∧ e? = some e ∧ dayOf s ≤ dayOf d ∧ dayOf d ≤ dayOf e) ∧
    (∀ d s e : Int, dayOf d = dayOf s → dayOf s ≤ dayOf e →
      isWithinClosedDay d (some s) (some e) = true) ∧
    (∀ d s e : Int, dayOf d = dayOf e → dayOf s ≤ dayOf e →
      isWithinClosedDay d (some s) (some e) = true) ∧
    (∀ (d : Int) (e? : Option Int), isWithinClosedDay d none e? = false) ∧
    (∀ (d : Int) (s? : Option Int), isWithinClosedDay d s? none = false) := by
  refine ⟨isWithinClosedDay_iff, ?_, ?_, ?_, ?_⟩
  · intro d s e h1 h2
    exact (isWithinClosedDay_iff d (some s) (some e)).mpr ⟨s, e, rfl, rfl, by omega, by omega⟩
  · intro d s e h1 h2
    exact (isWithinClosedDay_iff d (some s) (some e)).mpr ⟨s, e, rfl, rfl, by omega, by omega⟩
  · intro d e?
    rfl
  · intro d s?
    cases s? <;> rfl

theorem C2_closed_day_interval_witness :
    isWithinClosedDay (endOfDayUTC (atUTC 2026 1 28)) (some (atUTC 2026 1 1))
      (some (atUTC 2026 1 28)) = true :=
  C2_closed_day_interval.2.2.1 (endOfDayUTC (atUTC 2026 1 28)) (atUTC 2026 1 1)
    (atUTC 2026 1 28) (by decide) (by decide)

/-- C3: the Seeder skips creating a period exactly when the catalog holds a
record matching both day keys, and over a catalog that already contains
every generated period a second run changes nothing (zero creations). -/
theorem C3_seeder_skip_and_idempotence :
    (∀ (existing : List Release) (s e : Int),
      releaseWithTimeframeExists existing s e = true ↔
        ∃ r ∈ existing, toYMDopt r.tfStart = some (toYMDUTC s)
          ∧ toYMDopt r.tfEnd = some (toYMDUTC e)) ∧
    (∀ (gid : String) (periods : List Period) (existing : List Release)
        (co : Period → Except String Release) (st : SeedState),
      (∀ p ∈ periods, releaseWithTimeframeExists existing p.start p.stop = true) →
      ensureSeedForGroup (some gid) periods existing co st = st) := by
  refine ⟨releaseWithTimeframeExists_iff, ?_⟩
  intro gid periods existing co st hall
  rw [ensureSeedForGroup_spec]
  have hc : seedCreatedOf existing co periods = [] := by
    unfold seedCreatedOf
    apply List.filterMap_eq_nil_iff.mpr
    intro p hp
    simp [hall p hp]
  have hf : seedFailedOf existing co periods = [] := by
    unfold seedFailedOf
    apply List.filterMap_eq_nil_iff.mpr
    intro p hp
    simp [hall p hp]
  rw [hc, hf]
  simp

def pJan2026 : Period :=
  { name := "January 2026", start := atUTC 2026 0 1, stop := atUTC 2026 0 31 }

def rJan2026 : Release :=
  { id := "rel-jan", name := "January 2026"
    tfStart := some (atUTC 2026 0 1), tfEnd := some (atUTC 2026 0 31) }

theorem C3_seeder_skip_and_idempotence_witness :
    ensureSeedForGroup (some "grp") [pJan2026] [rJan2026]
      (fun _ => Except.error "store unreachable") { created := [], failed := [] }
      = { created := [], failed := [] } :=
  C3_seeder_skip_and_idempotence.2 "grp" [pJan2026] [rJan2026] _ _ (by decide)

/-- C5: within one group, a creation failure for one period does not abort
the remaining periods: the run always produces the full fold result, in
which each missing period contributes either a created record or its
`(name, error)` pair in `failed` — together they account for every missing
period attempted. -/
theorem C5_seeder_failure_isolation (gid : String) (periods : List Period)
    (existing : List Release) (co : Period → Except String Release) (st : SeedState) :
    ensureSeedForGroup (some gid) periods existing co st
      = { created := st.created ++ seedCreatedOf existing co periods
          failed := st.failed ++ seedFailedOf existing co periods } ∧
    (∀ p ∈ periods, releaseWithTimeframeExists existing p.start p.stop = false →
      (∃ r, co p = Except.ok r ∧ withName p.name r ∈ seedCreatedOf existing co periods) ∨
      (∃ msg, co p = Except.error msg ∧ (p.name, msg) ∈ seedFailedOf existing co periods)) := by
  refine ⟨ensureSeedForGroup_spec gid periods existing co st, ?_⟩
  intro p hp hmiss
  rcases hco : co p with msg | r
  · right
    refine ⟨msg, rfl, ?_⟩
    unfold seedFailedOf
    rw [List.mem_filterMap]
    exact ⟨p, hp, by simp [hmiss, hco]⟩
  · left
    refine ⟨r, rfl, ?_⟩
    unfold seedCreatedOf
    rw [List.mem_filterMap]
    exact ⟨p, hp, by simp [hmiss, hco]⟩

theorem C5_seeder_failure_isolation_witness :
    ensureSeedForGroup (some "grp") [pJan2026] []
        (fun _ => Except.error "rate limited") { created := [], failed := [] }
      = { created := [] ++ seedCreatedOf [] (fun _ => Except.error "rate limited") [pJan2026]
          failed := [] ++ seedFailedOf [] (fun _ => Except.error "rate limited") [pJan2026] } :=
  (C5_seeder_failure_isolation "grp" [pJan2026] [] (fun _ => Except.error "rate limited")
    { created := [], failed := [] }).1

def rFeb2026 : Release :=
  { id := "rel-feb", name := "February 2026"
    tfStart := some (atUTC 2026 1 1), tfEnd := some (atUTC 2026 1 28) }

def rMar2026 : Release :=
  { id := "rel-mar", name := "March 2026"
    tfStart := some (atUTC 2026 2 1), tfEnd := some (atUTC 2026 2 31) }

/-- C4 (counterexample): with a feature ending 2026-02-03, a catalog whose
February release matches, and a pre-existing stale link to the March
release, the reconciler issues the stale-link DELETE *before* the new link
POST — the claim's "assigns … and then removes" order does not hold. -/
theorem C4_claim_counterexample :
    upsertAssignmentForGroup (some (atUTC 2026 1 3)) (some "grp")
        (Except.ok [rFeb2026, rMar2026]) (some ["rel-mar"])
        (Except.ok [rFeb2026, rMar2026]) (fun _ => true) true
      = Except.ok (UpsertResult.assigned "rel-feb"
          [StoreOp.deleteLink "rel-mar", StoreOp.createLink "rel-feb"]) ∧
    ¬ TraceAssignsThenRemoves "rel-feb"
        [StoreOp.deleteLink "rel-mar", StoreOp.createLink "rel-feb"] := by
  constructor
  · rfl
  · rintro ⟨dels, hd, _⟩
    simp at hd

/-- C4 (amended): when the matcher finds a release containing the feature's
end day, the reconciler first removes every pre-existing link of the feature
to *other* releases of the same group and then creates the assignment to the
matched release; the DELETE responses are ignored, so an HTTP-level removal
failure never fails the operation (the result does not depend on
`delResp`). -/
theorem C4_assign_and_cleanup_amended (featureEnd : Int) (gid : String)
    (releases : List Release) (rels : List String) (groupReleases : List Release)
    (delResp : String → Bool) (target : Release)
    (hfind : releases.find? (fun r => isWithinClosedDay featureEnd r.tfStart r.tfEnd)
      = some target) :
    upsertAssignmentForGroup (some featureEnd) (some gid) (Except.ok releases) (some rels)
        (Except.ok groupReleases) delResp true
      = Except.ok (UpsertResult.assigned target.id
          ((rels.filter fun rid =>
              (groupReleases.map Release.id).contains rid && rid != target.id).map
            StoreOp.deleteLink
            ++ [StoreOp.createLink target.id])) := by
  simp only [upsertAssignmentForGroup]
  rw [hfind]
  rfl

theorem C4_assign_and_cleanup_amended_witness :
    upsertAssignmentForGroup (some (atUTC 2026 1 3)) (some "grp")
        (Except.ok [rFeb2026, rMar2026]) (some ["rel-mar"])
        (Except.ok [rFeb2026, rMar2026]) (fun _ => false) true
      = Except.ok (UpsertResult.assigned rFeb2026.id
          ((["rel-mar"].filter fun rid =>
              ([rFeb2026, rMar2026].map Release.id).contains rid && rid != rFeb2026.id).map
            StoreOp.deleteLink
            ++ [StoreOp.createLink rFeb2026.id])) :=
  C4_assign_and_cleanup_amended (atUTC 2026 1 3) "grp" [rFeb2026, rMar2026] ["rel-mar"]
    [rFeb2026, rMar2026] (fun _ => false) rFeb2026 (by decide)

/-- C6: the seeding endpoint reports per-group and overall statuses drawn
from success / partial_success / failed; it hard-fails (424, nothing
seeded) exactly when every group's catalog fetch failed, and otherwise each
fulfilled group is seeded against its own periods and catalog — other
groups' fetch failures do not affect its creation count. -/
theorem C6_admin_seed_reporting (env : AdminEnv) :
    ((adminSeedReleases env).isHardFailure = true ↔ ∀ l, (adminFetch env l).isOk = false) ∧
    ((adminSeedReleases env).isHardFailure = true →
        (adminSeedReleases env).overall = "failed"
        ∧ (adminSeedReleases env).createdNames = []) ∧
    ((adminSeedReleases env).isHardFailure = false →
        (adminSeedReleases env).overall
          = if adminAvailable env = 4 then "success" else "partial_success") ∧
    (∀ l, ((adminSeedReleases env).group l).status
        = if (adminSeedReleases env).isHardFailure then "failed"
          else if (adminFetch env l).isOk then "success" else "failed") ∧
    (∀ l, (adminFetch env l).isOk = true → (adminSeedReleases env).isHardFailure = false →
        ((adminSeedReleases env).group l).created
          = match env.rgIds l with
            | some _ => (seedCreatedOf (releasesOf (adminFetch env l)) (env.createOutcome l)
                (adminPeriods env l)).length
            | none => 0) ∧
    ((adminSeedReleases env).overall = "success"
      ∨ (adminSeedReleases env).overall = "partial_success"
      ∨ (adminSeedReleases env).overall = "failed") := by
  by_cases h0 : adminAvailable env = 0
  · unfold adminSeedReleases
    rw [if_pos h0]
    refine ⟨?_, ?_, ?_, ?_, ?_, ?_⟩
    · constructor
      · intro _
        exact (adminAvailable_eq_zero_iff env).mp h0
      · intro _
        rfl
    · intro _
      exact ⟨rfl, rfl⟩
    · intro hc
      simp [SeedResponse.isHardFailure] at hc
    · intro l
      rfl
    · intro l _ hc
      simp [SeedResponse.isHardFailure] at hc
    · right; right; rfl
  · unfold adminSeedReleases
    rw [if_neg h0]
    have hpos : 0 < adminAvailable env := Nat.pos_of_ne_zero h0
    refine ⟨?_, ?_, ?_, ?_, ?_, ?_⟩
    · constructor
      · intro hc
        simp [SeedResponse.isHardFailure] at hc
      · intro hall
        exact absurd ((adminAvailable_eq_zero_iff env).mpr hall) h0
    · intro hc
      simp [SeedResponse.isHardFailure] at hc
    · intro _
      show (if adminAvailable env = 4 then "success"
          else if 0 < adminAvailable env then "partial_success" else "failed") = _
      by_cases h4 : adminAvailable env = 4
      · rw [if_pos h4, if_pos h4]
      · rw [if_neg h4, if_neg h4, if_pos hpos]
    · intro l
      rfl
    · intro l h1 _
      show adminGroupCreated env l = _
      rw [adminGroupCreated_eq, h1]
      rfl
    · show (if adminAvailable env = 4 then "success"
          else if 0 < adminAvailable env then "partial_success" else "failed") = "success"
        ∨ (if adminAvailable env = 4 then "success"
          else if 0 < adminAvailable env then "partial_success" else "failed") = "partial_success"
        ∨ (if adminAvailable env = 4 then "success"
          else if 0 < adminAvailable env then "partial_success" else "failed") = "failed"
      by_cases h4 : adminAvailable env = 4
      · left
        rw [if_pos h4]
      · right; left
        rw [if_neg h4, if_pos hpos]

def envAllFailed : AdminEnv :=
  { now := atUTC 2026 0 10
    anchorMonthEnv := some 1
    rgIds := fun _ => some "gid"
    remote := fun _ => Except.error "catalog unreachable"
    createOutcome := fun _ _ => Except.error "unused" }

theorem C6_admin_seed_reporting_witness :
    (adminSeedReleases envAllFailed).isHardFailure = true
      ∧ (adminSeedReleases envAllFailed).overall = "failed"
      ∧ (adminSeedReleases envAllFailed).createdNames = [] := by
  have h := C6_admin_seed_reporting envAllFailed
  have h1 : (adminSeedReleases envAllFailed).isHardFailure = true :=
    h.1.mpr (glabel_cases _ rfl rfl rfl rfl)
  exact ⟨h1, (h.2.1 h1).1, (h.2.1 h1).2⟩

/-- C10: the quarterly generator's anchor handling is exactly the clamp
`min(12, max(1, Number(a)))` with non-numeric or falsy anchors treated as
January; out-of-range anchors never fail, they produce the clamped
generator's output. -/
theorem C10_anchor_clamping (rs re : Int) (a : Option Int) :
    buildQuarterlyPeriods rs re a
      = buildQuarterlyPeriods rs re
          (some (match a with | none => 1 | some v => min 12 (max 1 v))) := by
  have hanchor : jsQuarterAnchor a
      = jsQuarterAnchor (some (match a with | none => 1 | some v => min 12 (max 1 v))) := by
    cases a with
    | none => decide
    | some v =>
      simp only [jsQuarterAnchor, numberOr1]
      omega
  unfold buildQuarterlyPeriods
  rw [hanchor]

theorem quarterlyPeriodK_name (anchor k : Int) :
    (quarterlyPeriodK anchor k).name
      = "Q" ++ toString ((12 + (k % 12 - anchor)) % 12 / 3 + 1) ++ " " ++ toString (k / 12) := rfl

/-- C7: the quarterly periods start at the quarter start on or before
`rangeStart` (itself on or before `rangeStart`), end with the quarter start
on or before `rangeEnd`, each span exactly 3 months (end = start + 3 months
- 1 day), and every name carries the index
`floor(((12 + (month - anchor)) mod 12) / 3) + 1`, which always lies in
1..4. -/
theorem C7_quarterly_structure (rs re : Int) (a : Option Int) (h : rs ≤ re) :
    (∀ p, (buildQuarterlyPeriods rs re a).head? = some p →
        p.start = quarterStartFor (jsQuarterAnchor a) rs ∧ p.start ≤ rs) ∧
    (∀ p, (buildQuarterlyPeriods rs re a).getLast? = some p →
        p.start = quarterStartFor (jsQuarterAnchor a) re) ∧
    (∀ p ∈ buildQuarterlyPeriods rs re a, p.stop = addDays (addMonths p.start 3) (-1)) ∧
    (∀ p ∈ buildQuarterlyPeriods rs re a,
        p.name = "Q" ++ toString (quarterIndexOf (jsQuarterAnchor a) p.start) ++ " "
            ++ toString (getUTCFullYear p.start)
        ∧ 1 ≤ quarterIndexOf (jsQuarterAnchor a) p.start
        ∧ quarterIndexOf (jsQuarterAnchor a) p.start ≤ 4) := by
  have hk := monthFromDays_mono (dayOf_mono h)
  have hbs := monthFromDays_bracket (dayOf rs)
  have hoff := quarterOffset_bounds (jsQuarterAnchor a) (getUTCMonth rs)
  have hq0 := quarterStartMonth_le a rs
  rw [buildQuarterlyPeriods_eq]
  obtain ⟨m, hm⟩ : ∃ m : Nat,
      ((monthFromDays (dayOf re) - quarterStartMonth a rs) / 3 + 1).toNat = m + 1 :=
    ⟨((monthFromDays (dayOf re) - quarterStartMonth a rs) / 3).toNat, by omega⟩
  rw [hm]
  refine ⟨?_, ?_, ?_, ?_⟩
  · intro p hp
    rw [mapRange_head] at hp
    injection hp with hp
    rw [← hp, quarterlyPeriodK_start,
      show quarterStartMonth a rs + 3 * (0 : Int) = quarterStartMonth a rs from by ring]
    constructor
    · rw [quarterStartFor_eq]
      rfl
    · rw [midnight_le_any]
      have := firstDayOfMonth_mono hq0
      omega
  · intro p hp
    rw [mapRange_getLast] at hp
    injection hp with hp
    rw [← hp, quarterlyPeriodK_start, quarterly_last_eq rs re a m (by omega),
      quarterStartFor_eq]
    rfl
  · intro p hp
    rw [mapRange_mem] at hp
    obtain ⟨i, hi, rfl⟩ := hp
    rw [quarterlyPeriodK_start, quarterlyPeriodK_stop, addMonths_eq,
      monthFromDays_dayOf_midnight, addDays_eq]
    ring
  · intro p hp
    rw [mapRange_mem] at hp
    obtain ⟨i, hi, rfl⟩ := hp
    rw [quarterlyPeriodK_name, quarterlyPeriodK_start]
    unfold quarterIndexOf
    rw [getUTCMonth_midnight_first, getUTCFullYear_midnight_first]
    refine ⟨rfl, ?_, ?_⟩ <;> omega

theorem C7_quarterly_structure_witness :
    (atUTC 2026 0 15 ≤ atUTC 2026 5 15) ∧
    ((∀ p, (buildQuarterlyPeriods (atUTC 2026 0 15) (atUTC 2026 5 15) (some 8)).head? = some p →
        p.start = quarterStartFor (jsQuarterAnchor (some 8)) (atUTC 2026 0 15)
          ∧ p.start ≤ atUTC 2026 0 15) ∧
      (∀ p, (buildQuarterlyPeriods (atUTC 2026 0 15) (atUTC 2026 5 15) (some 8)).getLast?
          = some p →
        p.start = quarterStartFor (jsQuarterAnchor (some 8)) (atUTC 2026 5 15)) ∧
      (∀ p ∈ buildQuarterlyPeriods (atUTC 2026 0 15) (atUTC 2026 5 15) (some 8),
        p.stop = addDays (addMonths p.start 3) (-1)) ∧
      (∀ p ∈ buildQuarterlyPeriods (atUTC 2026 0 15) (atUTC 2026 5 15) (some 8),
        p.name = "Q" ++ toString (quarterIndexOf (jsQuarterAnchor (some 8)) p.start) ++ " "
            ++ toString (getUTCFullYear p.start)
        ∧ 1 ≤ quarterIndexOf (jsQuarterAnchor (some 8)) p.start
        ∧ quarterIndexOf (jsQuarterAnchor (some 8)) p.start ≤ 4)) :=
  ⟨by decide, C7_quarterly_structure (atUTC 2026 0 15) (atUTC 2026 5 15) (some 8) (by decide)⟩

/-- C8: the weekly generator starts at the Monday on or before `rangeStart`
(a Sunday start moves back 6 days), never emits a Monday past
`endOfDay(rangeEnd)`, makes every period span 7 days (end = start + 6
days), and on the range 2026-01-01..2026-01-31 yields exactly the five
Monday-aligned periods starting 2025-12-29, 2026-01-05, 2026-01-12,
2026-01-19 and 2026-01-26. -/
theorem C8_weekly_structure :
    (∀ rs re : Int, rs ≤ re →
      (∀ p, (buildWeeklyPeriods rs re).head? = some p →
          getUTCDay p.start = 1 ∧ dayOf rs - 6 ≤ dayOf p.start ∧ dayOf p.start ≤ dayOf rs) ∧
      (∀ p ∈ buildWeeklyPeriods rs re, p.start ≤ endOfDayUTC re
          ∧ p.stop = addDays p.start 6)) ∧
    (buildWeeklyPeriods (atUTC 2026 0 1) (atUTC 2026 0 31)).map (fun p => (p.start, p.stop))
      = [(atUTC 2025 11 29, atUTC 2026 0 4), (atUTC 2026 0 5, atUTC 2026 0 11),
         (atUTC 2026 0 12, atUTC 2026 0 18), (atUTC 2026 0 19, atUTC 2026 0 25),
         (atUTC 2026 0 26, atUTC 2026 1 1)] := by
  constructor
  · intro rs re h
    have hd := dayOf_mono h
    have hms := mondayStartDay_spec rs
    constructor
    · intro p hp
      rw [buildWeeklyPeriods_eq] at hp
      obtain ⟨m, hm⟩ : ∃ m : Nat, ((dayOf re - mondayStartDay rs) / 7 + 1).toNat = m + 1 :=
        ⟨((dayOf re - mondayStartDay rs) / 7).toNat, by omega⟩
      rw [hm, mapRange_head] at hp
      injection hp with hp
      rw [← hp, weeklyPeriodOf_start,
        show mondayStartDay rs + 7 * (0 : Int) = mondayStartDay rs from by ring, getUTCDay_mul,
        dayOf_mul]
      exact ⟨hms.1, hms.2.1, hms.2.2⟩
    · intro p hp
      rw [buildWeeklyPeriods_eq, mapRange_mem] at hp
      obtain ⟨i, hi, rfl⟩ := hp
      constructor
      · rw [weeklyPeriodOf_start, midnight_le_any, dayOf_endOfDay]
        omega
      · rw [weeklyPeriodOf_start, weeklyPeriodOf_stop, addDays_eq]
        ring
  · rw [buildWeeklyPeriods_eq]
    decide

theorem C8_weekly_structure_witness :
    (atUTC 2026 0 1 ≤ atUTC 2026 0 31) ∧
    ((∀ p, (buildWeeklyPeriods (atUTC 2026 0 1) (atUTC 2026 0 31)).head? = some p →
        getUTCDay p.start = 1 ∧ dayOf (atUTC 2026 0 1) - 6 ≤ dayOf p.start
          ∧ dayOf p.start ≤ dayOf (atUTC 2026 0 1)) ∧
      (∀ p ∈ buildWeeklyPeriods (atUTC 2026 0 1) (atUTC 2026 0 31),
        p.start ≤ endOfDayUTC (atUTC 2026 0 31) ∧ p.stop = addDays p.start 6)) :=
  ⟨by decide, C8_weekly_structure.1 (atUTC 2026 0 1) (atUTC 2026 0 31) (by decide)⟩

/-- C9: every period any generator returns has both endpoints at exactly
00:00:00.000 UTC (the end is the final day's midnight, not 23:59:59.999)
with start ≤ end — the canonical day-only form that `ensureSeedForGroup`
passes to `createRelease`. -/
theorem C9_midnight_canonical (rs re : Int) (a : Option Int) :
    MidnightPeriods (buildWeeklyPeriods rs re) ∧
    MidnightPeriods (buildMonthlyPeriods rs re) ∧
    MidnightPeriods (buildQuarterlyPeriods rs re a) ∧
    MidnightPeriods (buildYearlyPeriods rs re) :=
  ⟨buildWeeklyPeriods_midnight rs re, buildMonthlyPeriods_midnight rs re,
    buildQuarterlyPeriods_midnight rs re a, buildYearlyPeriods_midnight rs re⟩

theorem C9_midnight_canonical_witness :
    MidnightPeriods (buildWeeklyPeriods (atUTC 2026 0 1) (atUTC 2026 0 31)) :=
  (C9_midnight_canonical (atUTC 2026 0 1) (atUTC 2026 0 31) (some 1)).1
